import Mathlib

/-!
# Verification of the btp-packet codec

A shallow embedding of the `btp-packet` JavaScript/TypeScript codec for
Bilateral Transfer Protocol messages, together with proofs about it.

Wire bytes are modelled as `List Nat` (each writer emits values below 256;
`% 256` appears exactly where the JavaScript byte writers mask). The
`oer-utils` reader/writer collaborator is modelled by prefix-consuming
functions `Bytes → Except DecodeError (α × Bytes)`: a reader consumes an
initial segment of the buffer and returns the value together with the
unconsumed tail, failing where the JavaScript reader throws.
-/

namespace BtpCodec

/-- Wire byte strings: lists of naturals. Writers only emit values below 256. -/
abbrev Bytes : Type := List Nat

/-- Decode/encode failure taxonomy, following the spec's error names.
The JavaScript code throws plain `Error`s; each throw site is mapped to the
corresponding constructor here. -/
inductive DecodeError where
  | truncated
  | malformed
  | unrecognizedType
  | invalidErrorCode
  | invalidArgument
  | versionUnsupported
deriving DecidableEq, Repr

deriving instance DecidableEq for Except

/-- Result of a prefix-consuming read: the value and the unconsumed tail. -/
abbrev DecodeResult (α : Type) : Type := Except DecodeError (α × Bytes)

/-- Sequencing of prefix-consuming reads: feed the unconsumed tail of one
read into the next, propagating failure. -/
def andThen {α β : Type} (x : DecodeResult α) (f : α → Bytes → DecodeResult β) :
    DecodeResult β :=
  match x with
  | .ok (a, rest) => f a rest
  | .error e => .error e

theorem andThen_ok {α β : Type} {x : DecodeResult α} {a : α} {rest : Bytes}
    (f : α → Bytes → DecodeResult β) (h : x = .ok (a, rest)) :
    andThen x f = f a rest := by
  subst h; rfl

theorem andThen_error {α β : Type} {x : DecodeResult α} {e : DecodeError}
    (f : α → Bytes → DecodeResult β) (h : x = .error e) :
    andThen x f = .error e := by
  subst h; rfl

/-! ## oer-utils writer primitives -/

/-- `Writer.writeUInt8`: one byte. -/
def writeUInt8 (value : Nat) : Bytes := [value % 256]

/-- `Writer.writeUInt(value, length)`: `length` big-endian bytes. -/
def writeUIntBE (value : Nat) : Nat → Bytes
  | 0 => []
  | len + 1 => writeUIntBE (value / 256) len ++ [value % 256]

/-- `Writer.writeUInt32`: four big-endian bytes. -/
def writeUInt32 (value : Nat) : Bytes := writeUIntBE value 4

/-! ## oer-utils reader primitives -/

/-- Big-endian value of a byte string. -/
def bytesToNat (bs : Bytes) : Nat := bs.foldl (fun acc b => acc * 256 + b) 0

/-- `Reader.readUInt8`: one byte, or a truncation failure on an empty buffer. -/
def readUInt8 : Bytes → DecodeResult Nat
  | [] => .error .truncated
  | b :: rest => .ok (b, rest)

/-- `Reader.read(n)`: the next `n` raw bytes. -/
def readBytes (n : Nat) (bs : Bytes) : DecodeResult Bytes :=
  if n ≤ bs.length then .ok (bs.take n, bs.drop n) else .error .truncated

/-- `Reader.readUInt(length)`: `length` big-endian bytes as a number. -/
def readUIntBE (len : Nat) (bs : Bytes) : DecodeResult Nat :=
  andThen (readBytes len bs) fun chunk rest => .ok (bytesToNat chunk, rest)

/-- `Reader.readUInt32`. -/
def readUInt32 (bs : Bytes) : DecodeResult Nat := readUIntBE 4 bs

/-! ## Variable octet strings

`oer-utils` writes a var-octet-string as a length prefix followed by the raw
bytes: lengths below 128 in one byte, longer lengths as `0x80 +
lengthOfLength` followed by the length in `lengthOfLength` big-endian bytes,
where `lengthOfLength = ceil(bitLength(length) / 8)` is the minimal byte
count. That minimal byte count equals `Nat.log 256 length + 1`. -/

/-- Minimal number of big-endian bytes representing `n` (one byte for `0`). -/
def minBytes (n : Nat) : Nat := Nat.log 256 n + 1

/-- `Writer` length prefix for a var-octet-string. -/
def writeLengthPrefixOer (len : Nat) : Bytes :=
  if len < 128 then [len]
  else writeUInt8 (128 + minBytes len) ++ writeUIntBE len (minBytes len)

/-- `Writer.writeVarOctetString`. -/
def writeVarOctetString (b : Bytes) : Bytes := writeLengthPrefixOer b.length ++ b

/-- `Reader.readLengthPrefix`: a byte below 128 is the length itself; a byte
`0x80 + k` announces a `k`-byte big-endian length. -/
def readLengthPrefixOer (bs : Bytes) : DecodeResult Nat :=
  andThen (readUInt8 bs) fun b rest =>
    if b < 128 then .ok (b, rest) else readUIntBE (b - 128) rest

/-- `Reader.readVarOctetString`. -/
def readVarOctetString (bs : Bytes) : DecodeResult Bytes :=
  andThen (readLengthPrefixOer bs) fun len rest => readBytes len rest

/-! ## Primitive round-trip lemmas -/

@[simp] theorem writeUIntBE_length (value len : Nat) :
    (writeUIntBE value len).length = len := by
  induction len generalizing value with
  | zero => rfl
  | succ k ih => simp [writeUIntBE, ih]

theorem bytesToNat_concat (xs : Bytes) (b : Nat) :
    bytesToNat (xs ++ [b]) = bytesToNat xs * 256 + b := by
  simp [bytesToNat, List.foldl_append]

theorem bytesToNat_writeUIntBE (value len : Nat) :
    bytesToNat (writeUIntBE value len) = value % 256 ^ len := by
  induction len generalizing value with
  | zero => simp [writeUIntBE, bytesToNat, Nat.mod_one]
  | succ k ih =>
    rw [writeUIntBE, bytesToNat_concat, ih]
    have h : (256 : Nat) ^ (k + 1) = 256 * 256 ^ k := by ring
    rw [h, Nat.mod_mul]
    ring

theorem readUInt8_cons (b : Nat) (rest : Bytes) :
    readUInt8 (b :: rest) = .ok (b, rest) := rfl

theorem readBytes_exact (b rest : Bytes) :
    readBytes b.length (b ++ rest) = .ok (b, rest) := by
  have h : b.length ≤ (b ++ rest).length := by
    simp [List.length_append]
  simp [readBytes, h, List.take_left, List.drop_left]

theorem readBytes_of_length_eq {n : Nat} (b rest : Bytes) (h : b.length = n) :
    readBytes n (b ++ rest) = .ok (b, rest) := by
  subst h; exact readBytes_exact b rest

theorem readUIntBE_writeUIntBE (value len : Nat) (rest : Bytes) :
    readUIntBE len (writeUIntBE value len ++ rest) =
      .ok (value % 256 ^ len, rest) := by
  rw [readUIntBE,
    andThen_ok _ (readBytes_of_length_eq _ _ (writeUIntBE_length value len)),
    bytesToNat_writeUIntBE]

theorem readUIntBE_writeUIntBE_of_lt {value len : Nat} (rest : Bytes)
    (h : value < 256 ^ len) :
    readUIntBE len (writeUIntBE value len ++ rest) = .ok (value, rest) := by
  rw [readUIntBE_writeUIntBE, Nat.mod_eq_of_lt h]

/-! ## Facts about `minBytes` -/

theorem one_le_minBytes (n : Nat) : 1 ≤ minBytes n := Nat.le_add_left 1 _

theorem lt_pow_minBytes (n : Nat) : n < 256 ^ minBytes n :=
  Nat.lt_pow_succ_log_self (by norm_num) n

theorem minBytes_le_of_lt_pow {n k : Nat} (hk : 1 ≤ k) (h : n < 256 ^ k) :
    minBytes n ≤ k := by
  rcases Nat.eq_zero_or_pos n with rfl | hn
  · simpa [minBytes] using hk
  · have hlog : Nat.log 256 n < k := Nat.log_lt_of_lt_pow (by omega) h
    simp only [minBytes]
    omega

theorem minBytes_le_four {n : Nat} (h : n < 2 ^ 32) : minBytes n ≤ 4 := by
  refine minBytes_le_of_lt_pow (by norm_num) ?_
  calc n < 2 ^ 32 := h
    _ = 256 ^ 4 := by norm_num

theorem minBytes_le_eight {n : Nat} (h : n < 2 ^ 64) : minBytes n ≤ 8 := by
  refine minBytes_le_of_lt_pow (by norm_num) ?_
  calc n < 2 ^ 64 := h
    _ = 256 ^ 8 := by norm_num

theorem minBytes_le_self_succ (n : Nat) : minBytes n ≤ n + 1 := by
  have := Nat.log_le_self 256 n
  simp only [minBytes]
  omega

theorem writeLengthPrefixOer_length_le (n : Nat) :
    (writeLengthPrefixOer n).length ≤ n + 2 := by
  by_cases h : n < 128
  · simp [writeLengthPrefixOer, h]
  · have := minBytes_le_self_succ n
    simp only [writeLengthPrefixOer, h, if_false, writeUInt8, List.length_append,
      List.length_cons, List.length_nil, writeUIntBE_length]
    omega

theorem writeVarOctetString_length_le (b : Bytes) :
    (writeVarOctetString b).length ≤ 2 * b.length + 2 := by
  have := writeLengthPrefixOer_length_le b.length
  simp only [writeVarOctetString, List.length_append]
  omega

theorem readLengthPrefixOer_write {n : Nat} (rest : Bytes) (h : n < 256 ^ 127) :
    readLengthPrefixOer (writeLengthPrefixOer n ++ rest) = .ok (n, rest) := by
  by_cases hsmall : n < 128
  · rw [writeLengthPrefixOer, if_pos hsmall, List.cons_append, List.nil_append,
      readLengthPrefixOer, andThen_ok _ (readUInt8_cons n rest), if_pos hsmall]
  · have hmb : minBytes n ≤ 127 := minBytes_le_of_lt_pow (by norm_num) h
    have hbyte : (128 + minBytes n) % 256 = 128 + minBytes n :=
      Nat.mod_eq_of_lt (by omega)
    rw [writeLengthPrefixOer, if_neg hsmall, writeUInt8, hbyte, List.append_assoc,
      List.cons_append, List.nil_append, readLengthPrefixOer,
      andThen_ok _ (readUInt8_cons _ _), if_neg (by omega), Nat.add_sub_cancel_left]
    exact readUIntBE_writeUIntBE_of_lt rest (lt_pow_minBytes n)

theorem readVarOctetString_write {b : Bytes} (rest : Bytes)
    (h : b.length < 256 ^ 127) :
    readVarOctetString (writeVarOctetString b ++ rest) = .ok (b, rest) := by
  rw [readVarOctetString, writeVarOctetString, List.append_assoc,
    andThen_ok _ (readLengthPrefixOer_write (b ++ rest) h)]
  exact readBytes_exact b rest

/-! ## Prefix stability

Each reader consumes only an initial segment of the buffer, so appending
extra bytes to a buffer it accepts leaves the value unchanged and moves the
extra bytes into the unconsumed tail. -/

theorem readUInt8_append {bs : Bytes} {v : Nat} {r : Bytes} (s : Bytes)
    (h : readUInt8 bs = .ok (v, r)) :
    readUInt8 (bs ++ s) = .ok (v, r ++ s) := by
  cases bs with
  | nil => simp [readUInt8] at h
  | cons b rest =>
    simp only [readUInt8, Except.ok.injEq, Prod.mk.injEq] at h
    obtain ⟨rfl, rfl⟩ := h
    rfl

theorem readBytes_append {n : Nat} {bs : Bytes} {v r : Bytes} (s : Bytes)
    (h : readBytes n bs = .ok (v, r)) :
    readBytes n (bs ++ s) = .ok (v, r ++ s) := by
  simp only [readBytes] at h ⊢
  split at h
  · rename_i hle
    simp only [Except.ok.injEq, Prod.mk.injEq] at h
    obtain ⟨rfl, rfl⟩ := h
    have hle2 : n ≤ (bs ++ s).length := by
      simp only [List.length_append]; omega
    rw [if_pos hle2, List.take_append_of_le_length hle,
      List.drop_append_of_le_length hle]
  · exact absurd h (by simp)

theorem readUIntBE_append {n : Nat} {bs : Bytes} {v : Nat} {r : Bytes} (s : Bytes)
    (h : readUIntBE n bs = .ok (v, r)) :
    readUIntBE n (bs ++ s) = .ok (v, r ++ s) := by
  rw [readUIntBE] at h ⊢
  cases hrb : readBytes n bs with
  | error e => rw [andThen_error _ hrb] at h; exact absurd h (by simp)
  | ok p =>
    obtain ⟨chunk, rest⟩ := p
    rw [andThen_ok _ hrb] at h
    rw [andThen_ok _ (readBytes_append s hrb)]
    simp only [Except.ok.injEq, Prod.mk.injEq] at h ⊢
    exact ⟨h.1, by rw [h.2]⟩

theorem readLengthPrefixOer_append {bs : Bytes} {v : Nat} {r : Bytes} (s : Bytes)
    (h : readLengthPrefixOer bs = .ok (v, r)) :
    readLengthPrefixOer (bs ++ s) = .ok (v, r ++ s) := by
  rw [readLengthPrefixOer] at h ⊢
  cases h8 : readUInt8 bs with
  | error e => rw [andThen_error _ h8] at h; exact absurd h (by simp)
  | ok p =>
    obtain ⟨b, rest⟩ := p
    rw [andThen_ok _ h8] at h
    rw [andThen_ok _ (readUInt8_append s h8)]
    by_cases hb : b < 128
    · rw [if_pos hb] at h ⊢
      simp only [Except.ok.injEq, Prod.mk.injEq] at h ⊢
      exact ⟨h.1, by rw [h.2]⟩
    · rw [if_neg hb] at h ⊢
      exact readUIntBE_append s h

theorem readVarOctetString_append {bs : Bytes} {v r : Bytes} (s : Bytes)
    (h : readVarOctetString bs = .ok (v, r)) :
    readVarOctetString (bs ++ s) = .ok (v, r ++ s) := by
  rw [readVarOctetString] at h ⊢
  cases hlp : readLengthPrefixOer bs with
  | error e => rw [andThen_error _ hlp] at h; exact absurd h (by simp)
  | ok p =>
    obtain ⟨len, rest⟩ := p
    rw [andThen_ok _ hlp] at h
    rw [andThen_ok _ (readLengthPrefixOer_append s hlp)]
    exact readBytes_append s h

/-! ## Protocol data (sub-protocol) entries

`writeProtocolData` / `readProtocolData` are shared verbatim by every
generation of the codec (`src/index.js`, the TypeScript modules and the
versioned JavaScript module): a one-byte `lengthPrefixLengthPrefix`, the
entry count in that many big-endian bytes, then each entry as a
var-octet-string name, a one-byte content type and a var-octet-string data
blob. Entry names are modelled as their ASCII byte strings (the JavaScript
`Buffer.from(name, 'ascii')` / `buf.toString('ascii')` boundary is a
bijection on ASCII text). -/

/-- One sub-protocol entry of a packet's protocol-data list. -/
structure BtpSubProtocol where
  protocolName : Bytes
  contentType : Nat
  data : Bytes
deriving DecidableEq, Repr

/-- The width chosen for the count field:
`Math.max(1, Math.ceil((Math.log(count + 1) / Math.log(2)) / 8))`.
Over the naturals, `ceil(log2 x)` is `Nat.clog 2 x` and `ceil(a / 8)` is
`(a + 7) / 8`; the floating-point evaluation agrees with this exact value
(checked exhaustively below the first four byte-width boundaries). -/
def lengthPrefixLengthPrefix (count : Nat) : Nat :=
  max 1 ((Nat.clog 2 (count + 1) + 7) / 8)

/-- The formula picks exactly the minimal number of big-endian bytes that
can hold `count` (with one byte for zero). -/
theorem lengthPrefixLengthPrefix_eq_minBytes (n : Nat) :
    lengthPrefixLengthPrefix n = minBytes n := by
  have hpow : ∀ k : Nat, (2 : Nat) ^ (8 * k) = 256 ^ k := by
    intro k
    rw [Nat.pow_mul]
  apply Nat.le_antisymm
  · refine max_le (one_le_minBytes n) ?_
    have hclog : Nat.clog 2 (n + 1) ≤ 8 * minBytes n := by
      rw [← Nat.le_pow_iff_clog_le (by norm_num), hpow]
      exact lt_pow_minBytes n
    omega
  · by_cases hsmall : n < 256
    · have : minBytes n = 1 := by
        have : Nat.log 256 n = 0 := by
          rw [Nat.log_eq_zero_iff]
          exact Or.inl hsmall
        simp [minBytes, this]
      rw [this]
      exact le_max_left 1 _
    · set c := Nat.clog 2 (n + 1) with hc
      refine le_trans (minBytes_le_of_lt_pow (le_max_left 1 _) ?_) (le_refl _)
      have hle : n + 1 ≤ 2 ^ c := Nat.le_pow_clog (by norm_num) (n + 1)
      have h8 : c ≤ 8 * max 1 ((c + 7) / 8) := by
        have : c ≤ 8 * ((c + 7) / 8) := by omega
        have hmx : (c + 7) / 8 ≤ max 1 ((c + 7) / 8) := le_max_right 1 _
        omega
      calc n < n + 1 := Nat.lt_succ_self n
        _ ≤ 2 ^ c := hle
        _ ≤ 2 ^ (8 * max 1 ((c + 7) / 8)) := Nat.pow_le_pow_right (by norm_num) h8
        _ = 256 ^ max 1 ((c + 7) / 8) := hpow _
        _ = 256 ^ lengthPrefixLengthPrefix n := by rw [lengthPrefixLengthPrefix]

/-- Wire bytes of one entry. -/
def writeProtocolDataEntry (p : BtpSubProtocol) : Bytes :=
  writeVarOctetString p.protocolName ++ writeUInt8 p.contentType ++
    writeVarOctetString p.data

/-- `writeProtocolData`: count-width byte, count, then the entries. The
JavaScript `Array.isArray` guard cannot fail in this typed embedding, where
the argument is always a list. -/
def writeProtocolData (protocolData : List BtpSubProtocol) : Bytes :=
  writeUInt8 (lengthPrefixLengthPrefix protocolData.length) ++
    writeUIntBE protocolData.length (lengthPrefixLengthPrefix protocolData.length) ++
    (protocolData.map writeProtocolDataEntry).flatten

/-- Read one entry: var-octet-string name, content-type byte,
var-octet-string data. -/
def readProtocolDataEntry (bs : Bytes) : DecodeResult BtpSubProtocol :=
  andThen (readVarOctetString bs) fun protocolName bs =>
    andThen (readUInt8 bs) fun contentType bs =>
      andThen (readVarOctetString bs) fun data bs =>
        .ok (⟨protocolName, contentType, data⟩, bs)

/-- The decoder's entry loop (`for (let i = 0; i < lengthPrefix; ++i)`). -/
def readProtocolDataEntries : Nat → Bytes → DecodeResult (List BtpSubProtocol)
  | 0, bs => .ok ([], bs)
  | n + 1, bs =>
    andThen (readProtocolDataEntry bs) fun e bs =>
      andThen (readProtocolDataEntries n bs) fun es bs => .ok (e :: es, bs)

/-- `readProtocolData`: count-width byte, count in that many bytes, then
that many entries. The width byte is never validated against the canonical
formula. -/
def readProtocolData (bs : Bytes) : DecodeResult (List BtpSubProtocol) :=
  andThen (readUInt8 bs) fun lengthPrefixPrefix bs =>
    andThen (readUIntBE lengthPrefixPrefix bs) fun lengthPrefix bs =>
      readProtocolDataEntries lengthPrefix bs

/-! ## Well-formedness bounds

JavaScript arrays, strings and buffers all have fewer than `2 ^ 32`
elements; the writers below additionally mask single bytes by 256, so a
faithful round trip needs the content type below 256. -/

/-- A sub-protocol entry as the JavaScript interface can hold it. -/
def WfEntry (p : BtpSubProtocol) : Prop :=
  p.contentType < 256 ∧ p.protocolName.length < 2 ^ 32 ∧ p.data.length < 2 ^ 32

/-- A protocol-data list as the JavaScript interface can hold it. -/
def WfProtocolData (pd : List BtpSubProtocol) : Prop :=
  pd.length < 2 ^ 32 ∧ ∀ p ∈ pd, WfEntry p

instance (p : BtpSubProtocol) : Decidable (WfEntry p) := by
  unfold WfEntry; infer_instance

instance (pd : List BtpSubProtocol) : Decidable (WfProtocolData pd) := by
  unfold WfProtocolData; infer_instance

theorem readProtocolDataEntry_write {p : BtpSubProtocol} (rest : Bytes)
    (hp : WfEntry p) :
    readProtocolDataEntry (writeProtocolDataEntry p ++ rest) = .ok (p, rest) := by
  obtain ⟨hct, hname, hdata⟩ := hp
  have hn : p.protocolName.length < 256 ^ 127 := by
    calc p.protocolName.length < 2 ^ 32 := hname
      _ < 256 ^ 127 := by norm_num
  have hd : p.data.length < 256 ^ 127 := by
    calc p.data.length < 2 ^ 32 := hdata
      _ < 256 ^ 127 := by norm_num
  rw [writeProtocolDataEntry, readProtocolDataEntry, List.append_assoc,
    List.append_assoc, andThen_ok _ (readVarOctetString_write _ hn), writeUInt8,
    List.cons_append, List.nil_append, andThen_ok _ (readUInt8_cons _ _),
    andThen_ok _ (readVarOctetString_write _ hd), Nat.mod_eq_of_lt hct]

theorem readProtocolDataEntries_write {pd : List BtpSubProtocol} (rest : Bytes)
    (hpd : ∀ p ∈ pd, WfEntry p) :
    readProtocolDataEntries pd.length
      ((pd.map writeProtocolDataEntry).flatten ++ rest) = .ok (pd, rest) := by
  induction pd generalizing rest with
  | nil => simp [readProtocolDataEntries]
  | cons p ps ih =>
    have hp : WfEntry p := hpd p (List.mem_cons_self p ps)
    have hps : ∀ q ∈ ps, WfEntry q := fun q hq => hpd q (List.mem_cons_of_mem p hq)
    rw [List.length_cons, List.map_cons, List.flatten_cons, List.append_assoc,
      readProtocolDataEntries, andThen_ok _ (readProtocolDataEntry_write _ hp),
      andThen_ok _ (ih rest hps)]

/-- Decoding a non-canonically-widened count prefix: any width byte `w`
that can hold the count is accepted and decodes to the same list. -/
theorem readProtocolData_anyWidth {pd : List BtpSubProtocol} {w : Nat}
    (rest : Bytes) (hw : w < 256) (hcount : pd.length < 256 ^ w)
    (hpd : ∀ p ∈ pd, WfEntry p) :
    readProtocolData
      (w :: (writeUIntBE pd.length w ++ (pd.map writeProtocolDataEntry).flatten)
        ++ rest) = .ok (pd, rest) := by
  rw [readProtocolData, List.cons_append, andThen_ok _ (readUInt8_cons _ _),
    List.append_assoc, andThen_ok _ (readUIntBE_writeUIntBE_of_lt _ hcount)]
  exact readProtocolDataEntries_write rest hpd

/-- Round trip of the canonical protocol-data encoding. -/
theorem readProtocolData_write {pd : List BtpSubProtocol} (rest : Bytes)
    (hpd : WfProtocolData pd) :
    readProtocolData (writeProtocolData pd ++ rest) = .ok (pd, rest) := by
  obtain ⟨hlen, hents⟩ := hpd
  have hw : lengthPrefixLengthPrefix pd.length < 256 := by
    have h4 : minBytes pd.length ≤ 4 := minBytes_le_four hlen
    rw [lengthPrefixLengthPrefix_eq_minBytes]
    omega
  have hcount : pd.length < 256 ^ lengthPrefixLengthPrefix pd.length := by
    rw [lengthPrefixLengthPrefix_eq_minBytes]
    exact lt_pow_minBytes pd.length
  have := readProtocolData_anyWidth rest hw hcount hents
  rw [writeProtocolData, writeUInt8, Nat.mod_eq_of_lt hw, List.cons_append,
    List.nil_append]
  rw [List.cons_append] at this
  exact this

/-- Flattened entry encodings are bounded entrywise. -/
theorem flatten_entries_length_le {l : List BtpSubProtocol}
    (h : ∀ p ∈ l, (writeProtocolDataEntry p).length ≤ 2 ^ 35) :
    ((l.map writeProtocolDataEntry).flatten).length ≤ l.length * 2 ^ 35 := by
  induction l with
  | nil => simp
  | cons p ps ih =>
    have hp := h p (List.mem_cons_self p ps)
    have hps : ∀ q ∈ ps, (writeProtocolDataEntry q).length ≤ 2 ^ 35 :=
      fun q hq => h q (List.mem_cons_of_mem p hq)
    have hrec := ih hps
    simp only [List.map_cons, List.flatten_cons, List.length_append,
      List.length_cons]
    have : (ps.length + 1) * 2 ^ 35 = 2 ^ 35 + ps.length * 2 ^ 35 := by ring
    omega

/-- Total size of the canonical protocol-data encoding, crudely bounded. -/
theorem writeProtocolData_length_le {pd : List BtpSubProtocol}
    (hpd : WfProtocolData pd) :
    (writeProtocolData pd).length ≤ 2 ^ 70 := by
  obtain ⟨hlen, hents⟩ := hpd
  have hentry : ∀ p ∈ pd, (writeProtocolDataEntry p).length ≤ 2 ^ 35 := by
    intro p hp
    obtain ⟨hct, hname, hdata⟩ := hents p hp
    have h1 := writeVarOctetString_length_le p.protocolName
    have h2 := writeVarOctetString_length_le p.data
    simp only [writeProtocolDataEntry, List.length_append, writeUInt8,
      List.length_cons, List.length_nil]
    omega
  have hflat : ((pd.map writeProtocolDataEntry).flatten).length ≤
      pd.length * 2 ^ 35 := flatten_entries_length_le hentry
  have hmb : lengthPrefixLengthPrefix pd.length ≤ 4 := by
    rw [lengthPrefixLengthPrefix_eq_minBytes]
    exact minBytes_le_four hlen
  have htot : pd.length * 2 ^ 35 ≤ 2 ^ 32 * 2 ^ 35 :=
    Nat.mul_le_mul_right _ (le_of_lt hlen)
  simp only [writeProtocolData, List.length_append, writeUInt8,
    List.length_cons, List.length_nil, writeUIntBE_length]
  have : (2 : Nat) ^ 32 * 2 ^ 35 = 2 ^ 67 := by norm_num
  have h70 : (1 : Nat) + 4 + 2 ^ 67 ≤ 2 ^ 70 := by norm_num
  omega

/-! ## Decimal amount strings

Amounts cross the API boundary as decimal strings and are parsed with
arbitrary-precision `BigNumber` arithmetic. Decimal strings are modelled as
their ASCII byte strings. `natToDecimal` produces the canonical decimal
representation (what `BigNumber.toString(10)` returns); `decimalToNat` is
the value of a digit string. -/

/-- Decimal digits of `n`, most significant first, as ASCII bytes.
Fuel-based structural recursion so that concrete values evaluate. -/
def natToDecimalAux : Nat → Nat → Bytes
  | 0, _ => []
  | fuel + 1, n =>
    if n < 10 then [n + 48] else natToDecimalAux fuel (n / 10) ++ [n % 10 + 48]

/-- Canonical decimal ASCII representation of `n`. -/
def natToDecimal (n : Nat) : Bytes := natToDecimalAux (n + 1) n

/-- Numeric value of a decimal ASCII digit string. -/
def decimalToNat (s : Bytes) : Nat := s.foldl (fun acc d => acc * 10 + (d - 48)) 0

theorem decimalToNat_concat (xs : Bytes) (d : Nat) :
    decimalToNat (xs ++ [d]) = decimalToNat xs * 10 + (d - 48) := by
  simp [decimalToNat, List.foldl_append]

theorem decimalToNat_natToDecimalAux {fuel n : Nat} (h : n < fuel) :
    decimalToNat (natToDecimalAux fuel n) = n := by
  induction fuel generalizing n with
  | zero => omega
  | succ k ih =>
    by_cases hn : n < 10
    · simp [natToDecimalAux, hn, decimalToNat]
    · have hrec : n / 10 < k := by omega
      rw [natToDecimalAux, if_neg hn, decimalToNat_concat, ih hrec]
      omega

/-- Parsing the canonical decimal representation returns the value. -/
theorem decimalToNat_natToDecimal (n : Nat) :
    decimalToNat (natToDecimal n) = n :=
  decimalToNat_natToDecimalAux (Nat.lt_succ_self n)

/-- `0x100000000`, the split point between the legacy 32-bit words. -/
def HIGH_WORD_MULTIPLIER : Nat := 4294967296

/-- `twoNumbersToString`: recombine a legacy `(hi, lo)` 32-bit word pair
into a decimal string via `hi * 2^32 + lo` in arbitrary precision. -/
def twoNumbersToString (num : Nat × Nat) : Bytes :=
  natToDecimal (num.1 * HIGH_WORD_MULTIPLIER + num.2)

/-- `stringToTwoNumbers`: parse a decimal string and split it into the
legacy `(hi, lo)` 32-bit word pair by integer division and remainder. -/
def stringToTwoNumbers (num : Bytes) : Nat × Nat :=
  (decimalToNat num / HIGH_WORD_MULTIPLIER, decimalToNat num % HIGH_WORD_MULTIPLIER)

/-- `Writer.writeUInt64` applied to a `(hi, lo)` pair. -/
def writeUInt64 (num : Nat × Nat) : Bytes :=
  writeUIntBE num.1 4 ++ writeUIntBE num.2 4

/-- `Reader.readUInt64` returning a `(hi, lo)` pair. -/
def readUInt64 (bs : Bytes) : DecodeResult (Nat × Nat) :=
  andThen (readUIntBE 4 bs) fun hi bs =>
    andThen (readUIntBE 4 bs) fun lo bs => .ok ((hi, lo), bs)

theorem readUInt64_writeUInt64 {hi lo : Nat} (rest : Bytes)
    (hhi : hi < 2 ^ 32) (hlo : lo < 2 ^ 32) :
    readUInt64 (writeUInt64 (hi, lo) ++ rest) = .ok ((hi, lo), rest) := by
  have hhi' : hi < 256 ^ 4 := by
    calc hi < 2 ^ 32 := hhi
      _ = 256 ^ 4 := by norm_num
  have hlo' : lo < 256 ^ 4 := by
    calc lo < 2 ^ 32 := hlo
      _ = 256 ^ 4 := by norm_num
  rw [readUInt64, writeUInt64, List.append_assoc,
    andThen_ok _ (readUIntBE_writeUIntBE_of_lt _ hhi'),
    andThen_ok _ (readUIntBE_writeUIntBE_of_lt _ hlo')]

/-! ## GeneralizedTime timestamps

Dates are formatted as `YYYYMMDDHHMMSS.mmmZ` (19 ASCII bytes, UTC) and
parsed by matching that exact pattern with a regular expression, reshaping
to ISO form and passing the result to the `Date` constructor. A JavaScript
`Date` is modelled by its UTC calendar components; a `Date` built from a
string that is not a well-formed UTC timestamp (the regular expression did
not match, or a matching string carries out-of-range fields, which the
engine's ISO parser rejects or normalises) is modelled by the raw string it
was built from. -/

/-- UTC calendar components of a JavaScript `Date` (millisecond precision). -/
structure DateComponents where
  year : Nat
  month : Nat
  day : Nat
  hour : Nat
  minute : Nat
  second : Nat
  millisecond : Nat
deriving DecidableEq, Repr

/-- A JavaScript `Date` value: either a proper calendar instant, or the raw
string a non-timestamp parse was given (an environment-defined value). -/
inductive JsDate where
  | valid (c : DateComponents)
  | fromRaw (s : Bytes)
deriving DecidableEq, Repr

/-- `value` printed in exactly `width` decimal ASCII digits (leading
zeros, truncating higher digits — the components written are in range). -/
def padDigits : Nat → Nat → Bytes
  | 0, _ => []
  | w + 1, value => padDigits w (value / 10) ++ [value % 10 + 48]

@[simp] theorem padDigits_length (w value : Nat) :
    (padDigits w value).length = w := by
  induction w generalizing value with
  | zero => rfl
  | succ k ih => simp [padDigits, ih]

/-- The 19 bytes `dateFormat(date, "UTC:yyyymmddHHMMss.l'Z'")` produces. -/
def toGeneralizedTimeBytes (c : DateComponents) : Bytes :=
  padDigits 4 c.year ++ padDigits 2 c.month ++ padDigits 2 c.day ++
    padDigits 2 c.hour ++ padDigits 2 c.minute ++ padDigits 2 c.second ++
    [46] ++ padDigits 3 c.millisecond ++ [90]

/-- `toGeneralizedTimeBuffer`: format a `Date`. `dateFormat` throws on an
invalid `Date`; a `Date` that did not come from calendar components has an
environment-defined value and is rejected here (no claim exercises it). -/
def toGeneralizedTimeBuffer : JsDate → Except DecodeError Bytes
  | .valid c => .ok (toGeneralizedTimeBytes c)
  | .fromRaw _ => .error .malformed

/-- ASCII decimal digit test, `[0-9]`. -/
def isDigit (b : Nat) : Bool := decide (48 ≤ b) && decide (b ≤ 57)

/-- Value of an ASCII digit. -/
def digitVal (b : Nat) : Nat := b - 48

/-- The `GENERALIZED_TIME_REGEX` pattern
`^([0-9]{4})([0-9]{2})([0-9]{2})([0-9]{2})([0-9]{2})([0-9]{2}\.[0-9]{3}Z)$`:
19 bytes, fourteen digits, a dot, three digits and `Z`; on a match, the
captured calendar components. -/
def parseGeneralizedTime : Bytes → Option DateComponents
  | [y1, y2, y3, y4, mo1, mo2, d1, d2, h1, h2, mi1, mi2, s1, s2, dot, f1, f2, f3, z] =>
    if isDigit y1 && isDigit y2 && isDigit y3 && isDigit y4 &&
        isDigit mo1 && isDigit mo2 && isDigit d1 && isDigit d2 &&
        isDigit h1 && isDigit h2 && isDigit mi1 && isDigit mi2 &&
        isDigit s1 && isDigit s2 && dot == 46 &&
        isDigit f1 && isDigit f2 && isDigit f3 && z == 90 then
      some ⟨digitVal y1 * 1000 + digitVal y2 * 100 + digitVal y3 * 10 + digitVal y4,
        digitVal mo1 * 10 + digitVal mo2,
        digitVal d1 * 10 + digitVal d2,
        digitVal h1 * 10 + digitVal h2,
        digitVal mi1 * 10 + digitVal mi2,
        digitVal s1 * 10 + digitVal s2,
        digitVal f1 * 100 + digitVal f2 * 10 + digitVal f3⟩
    else none
  | _ => none

/-- Whether the stored octet string matches `GENERALIZED_TIME_REGEX`. -/
def matchesGeneralizedTime (s : Bytes) : Bool := (parseGeneralizedTime s).isSome

/-- Gregorian leap years. -/
def isLeapYear (y : Nat) : Bool :=
  (decide (y % 4 = 0) && decide (y % 100 ≠ 0)) || decide (y % 400 = 0)

/-- Days in a calendar month. -/
def daysInMonth (y m : Nat) : Nat :=
  if m = 2 then (if isLeapYear y then 29 else 28)
  else if m = 4 ∨ m = 6 ∨ m = 9 ∨ m = 11 then 30
  else 31

/-- Calendar components an engine's ISO-format `Date` parse accepts as a
proper instant (and that a real `Date` object can carry). -/
def ValidComponents (c : DateComponents) : Prop :=
  c.year < 10000 ∧ 1 ≤ c.month ∧ c.month ≤ 12 ∧ 1 ≤ c.day ∧
    c.day ≤ daysInMonth c.year c.month ∧ c.hour ≤ 23 ∧ c.minute ≤ 59 ∧
    c.second ≤ 59 ∧ c.millisecond ≤ 999

instance (c : DateComponents) : Decidable (ValidComponents c) := by
  unfold ValidComponents; infer_instance

/-- `readGeneralizedTime`: read the var-octet-string; a regex match is
reshaped to ISO form and becomes a calendar `Date`; a non-match is passed
to the `Date` constructor unchanged (the constructor never throws). -/
def readGeneralizedTime (bs : Bytes) : DecodeResult JsDate :=
  andThen (readVarOctetString bs) fun s rest =>
    match parseGeneralizedTime s with
    | some c => if ValidComponents c then .ok (.valid c, rest) else .ok (.fromRaw s, rest)
    | none => .ok (.fromRaw s, rest)

theorem padDigits_four (v : Nat) :
    padDigits 4 v = [v / 1000 % 10 + 48, v / 100 % 10 + 48, v / 10 % 10 + 48,
      v % 10 + 48] := by
  simp [padDigits, Nat.div_div_eq_div_mul]

theorem padDigits_three (v : Nat) :
    padDigits 3 v = [v / 100 % 10 + 48, v / 10 % 10 + 48, v % 10 + 48] := by
  simp [padDigits, Nat.div_div_eq_div_mul]

theorem padDigits_two (v : Nat) :
    padDigits 2 v = [v / 10 % 10 + 48, v % 10 + 48] := by
  simp [padDigits]

theorem isDigit_mod_ten (v : Nat) : isDigit (v % 10 + 48) = true := by
  have := Nat.mod_lt v (show 0 < 10 by norm_num)
  simp only [isDigit, Bool.and_eq_true, decide_eq_true_eq]
  omega

/-- Formatting in-range components and parsing the result recovers the
components: the regex matches and the captures recompose. -/
theorem parseGeneralizedTime_format {c : DateComponents}
    (hy : c.year < 10000) (hmo : c.month < 100) (hd : c.day < 100)
    (hh : c.hour < 100) (hmi : c.minute < 100) (hs : c.second < 100)
    (hms : c.millisecond < 1000) :
    parseGeneralizedTime (toGeneralizedTimeBytes c) = some c := by
  obtain ⟨y, mo, d, h, mi, s, ms⟩ := c
  simp only [toGeneralizedTimeBytes, padDigits_four, padDigits_three,
    padDigits_two] at *
  simp only [List.cons_append, List.nil_append]
  rw [parseGeneralizedTime]
  rw [if_pos]
  · simp only [Option.some.injEq, DateComponents.mk.injEq, digitVal]
    refine ⟨?_, ?_, ?_, ?_, ?_, ?_, ?_⟩ <;> omega
  · simp only [isDigit_mod_ten, Bool.and_eq_true, beq_iff_eq]
    refine ⟨?_, ?_⟩ <;> simp

theorem toGeneralizedTimeBytes_length (c : DateComponents) :
    (toGeneralizedTimeBytes c).length = 19 := by
  simp [toGeneralizedTimeBytes]

/-- Round trip of an in-range calendar timestamp through the wire format. -/
theorem daysInMonth_le (y m : Nat) : daysInMonth y m ≤ 31 := by
  unfold daysInMonth
  split_ifs <;> omega

theorem readGeneralizedTime_write {c : DateComponents} (rest : Bytes)
    (hv : ValidComponents c) :
    readGeneralizedTime (writeVarOctetString (toGeneralizedTimeBytes c) ++ rest)
      = .ok (.valid c, rest) := by
  obtain ⟨hy, hmo1, hmo2, hd1, hd2, hh, hmi, hs, hms⟩ := hv
  have hlen : (toGeneralizedTimeBytes c).length < 256 ^ 127 := by
    rw [toGeneralizedTimeBytes_length]; norm_num
  have hdm := daysInMonth_le c.year c.month
  have hp := parseGeneralizedTime_format (c := c) hy (by omega) (by omega)
    (by omega) (by omega) (by omega) (by omega)
  rw [readGeneralizedTime, andThen_ok _ (readVarOctetString_write rest hlen)]
  simp only [hp]
  rw [if_pos ⟨hy, hmo1, hmo2, hd1, hd2, hh, hmi, hs, hms⟩]

/-- Reading a stored timestamp that does not match the pattern succeeds and
hands the raw string to the `Date` constructor. -/
theorem readGeneralizedTime_noMatch {s : Bytes} (rest : Bytes)
    (hs : s.length < 256 ^ 127) (hm : matchesGeneralizedTime s = false) :
    readGeneralizedTime (writeVarOctetString s ++ rest) = .ok (.fromRaw s, rest) := by
  have hp : parseGeneralizedTime s = none := by
    cases hps : parseGeneralizedTime s with
    | none => rfl
    | some c => rw [matchesGeneralizedTime, hps] at hm; simp at hm
  rw [readGeneralizedTime, andThen_ok _ (readVarOctetString_write rest hs), hp]

/-! ## Packet types and version dispatch

Constants and dispatch from the versioned JavaScript module: type codes
`TYPE_ACK = 0` through `TYPE_TRANSFER = 7`, shifted up by one on the wire
in BTP version Alpha. -/

def TYPE_ACK : Nat := 0
def TYPE_RESPONSE : Nat := 1
def TYPE_ERROR : Nat := 2
def TYPE_PREPARE : Nat := 3
def TYPE_FULFILL : Nat := 4
def TYPE_REJECT : Nat := 5
def TYPE_MESSAGE : Nat := 6
def TYPE_TRANSFER : Nat := 7

def MIME_APPLICATION_OCTET_STREAM : Nat := 0
def MIME_TEXT_PLAIN_UTF8 : Nat := 1
def MIME_APPLICATION_JSON : Nat := 2

def BTP_VERSION_ALPHA : Nat := 0
def BTP_VERSION_1 : Nat := 1
def BTP_VERSION_1_1 : Nat := 2

/-- Wire type byte of a logical type (`type + 1` in version Alpha). -/
def typeToVersion (type btpVersion : Nat) : Nat :=
  if btpVersion = BTP_VERSION_ALPHA then type + 1 else type

/-- Logical type of a wire type byte (`type - 1` in version Alpha; the
JavaScript subtraction can go negative, hence the integer result). -/
def typeFromVersion (type btpVersion : Nat) : Int :=
  if btpVersion = BTP_VERSION_ALPHA then (type : Int) - 1 else (type : Int)

theorem typeFromVersion_typeToVersion (t v : Nat) :
    typeFromVersion (typeToVersion t v) v = (t : Int) := by
  unfold typeFromVersion typeToVersion
  split_ifs <;> push_cast <;> ring

/-- Payload of a packet, one constructor per JavaScript payload shape.
Version Alpha carries ACK/RESPONSE/MESSAGE protocol data as a bare array
(`bare`) where later versions wrap it in an object with a `protocolData`
field (`wrapped`), and carries an opaque rejection-reason blob in ERROR and
REJECT payloads. Text fields are modelled as their byte strings, transfer
ids as their 16 raw bytes and condition/fulfillment digests as their 32 raw
bytes (the hex-UUID and unpadded base64 boundary encodings of those fields
are bijections). Amounts are decimal ASCII strings. -/
inductive BtpData where
  | bare (protocolData : List BtpSubProtocol)
  | wrapped (protocolData : List BtpSubProtocol)
  | transfer (amount : Bytes) (protocolData : List BtpSubProtocol)
  | error (code name : Bytes) (triggeredAt : JsDate) (data : Bytes)
      (protocolData : List BtpSubProtocol)
  | errorAlpha (rejectionReason : Bytes) (protocolData : List BtpSubProtocol)
  | prepare (transferId amount executionCondition : Bytes) (expiresAt : JsDate)
      (protocolData : List BtpSubProtocol)
  | fulfill (transferId fulfillment : Bytes) (protocolData : List BtpSubProtocol)
  | reject (transferId : Bytes) (protocolData : List BtpSubProtocol)
  | rejectAlpha (transferId rejectionReason : Bytes)
      (protocolData : List BtpSubProtocol)
deriving DecidableEq, Repr

/-- A BTP packet: logical type code, request id, payload. -/
structure BtpPacket where
  type : Nat
  requestId : Nat
  data : BtpData
deriving DecidableEq, Repr

/-! ## Payload writers (`writeTransfer`, `writeError`, ...)

Each writer mirrors the corresponding JavaScript function. The JavaScript
payloads are untyped objects; a payload whose shape does not match the
function's expectations makes it throw while reading missing fields, which
the typed embedding renders as an `invalidArgument` failure on a
wrong-constructor payload. -/

def writeTransfer (data : BtpData) (btpVersion : Nat) : Except DecodeError Bytes :=
  if btpVersion < BTP_VERSION_1_1 then .error .versionUnsupported
  else match data with
    | .transfer amount protocolData =>
      .ok (writeUInt64 (stringToTwoNumbers amount) ++ writeProtocolData protocolData)
    | _ => .error .invalidArgument

def writeError (data : BtpData) (btpVersion : Nat) : Except DecodeError Bytes :=
  if btpVersion = BTP_VERSION_ALPHA then
    match data with
    | .errorAlpha rejectionReason protocolData =>
      .ok (rejectionReason ++ writeProtocolData protocolData)
    | _ => .error .invalidArgument
  else
    match data with
    | .error code name triggeredAt dataStr protocolData =>
      if code.length ≠ 3 then .error .invalidErrorCode
      else
        match toGeneralizedTimeBuffer triggeredAt with
        | .ok t =>
          .ok (code ++ writeVarOctetString name ++ writeVarOctetString t ++
            writeVarOctetString dataStr ++ writeProtocolData protocolData)
        | .error e => .error e
    | _ => .error .invalidArgument

def writePrepare (data : BtpData) : Except DecodeError Bytes :=
  match data with
  | .prepare transferId amount executionCondition expiresAt protocolData =>
    match toGeneralizedTimeBuffer expiresAt with
    | .ok t =>
      .ok (transferId ++ writeUInt64 (stringToTwoNumbers amount) ++
        executionCondition ++ writeVarOctetString t ++
        writeProtocolData protocolData)
    | .error e => .error e
  | _ => .error .invalidArgument

def writeFulfill (data : BtpData) : Except DecodeError Bytes :=
  match data with
  | .fulfill transferId fulfillment protocolData =>
    .ok (transferId ++ fulfillment ++ writeProtocolData protocolData)
  | _ => .error .invalidArgument

def writeReject (data : BtpData) (btpVersion : Nat) : Except DecodeError Bytes :=
  if btpVersion = BTP_VERSION_ALPHA then
    match data with
    | .rejectAlpha transferId rejectionReason protocolData =>
      .ok (transferId ++ rejectionReason ++ writeProtocolData protocolData)
    | _ => .error .invalidArgument
  else
    match data with
    | .reject transferId protocolData =>
      .ok (transferId ++ writeProtocolData protocolData)
    | _ => .error .invalidArgument

/-- The `switch (obj.type)` of `serialize`: produce the payload bytes. -/
def writeContents (obj : BtpPacket) (btpVersion : Nat) : Except DecodeError Bytes :=
  if obj.type = TYPE_ACK ∨ obj.type = TYPE_RESPONSE ∨ obj.type = TYPE_MESSAGE then
    if btpVersion = BTP_VERSION_ALPHA then
      match obj.data with
      | .bare protocolData => .ok (writeProtocolData protocolData)
      | _ => .error .invalidArgument
    else
      match obj.data with
      | .wrapped protocolData => .ok (writeProtocolData protocolData)
      | _ => .error .invalidArgument
  else if obj.type = TYPE_TRANSFER then writeTransfer obj.data btpVersion
  else if obj.type = TYPE_ERROR then writeError obj.data btpVersion
  else if obj.type = TYPE_PREPARE then writePrepare obj.data
  else if obj.type = TYPE_FULFILL then writeFulfill obj.data
  else if obj.type = TYPE_REJECT then writeReject obj.data btpVersion
  else .error .unrecognizedType

/-- `serialize(obj, btpVersion)`: version-shifted type byte, four-byte
request id, then the payload as a var-octet-string. -/
def serialize (obj : BtpPacket) (btpVersion : Nat) : Except DecodeError Bytes :=
  match writeContents obj btpVersion with
  | .ok contents =>
    .ok (writeUInt8 (typeToVersion obj.type btpVersion) ++
      writeUInt32 obj.requestId ++ writeVarOctetString contents)
  | .error e => .error e

/-! ## Payload readers and `deserialize` -/

/-- `readIlpError`: read the embedded error's one-byte type tag; bookmark,
read the length-prefix value, restore; read the var-octet-string contents;
return the concatenation `[type][length-as-one-byte][contents]` (the
bookmark is modelled by reading the prefix twice from the same position;
`Buffer.from([length])` masks the length value by 256). -/
def readIlpError (bs : Bytes) : DecodeResult Bytes :=
  andThen (readUInt8 bs) fun t bs1 =>
    andThen (readLengthPrefixOer bs1) fun len _ =>
      andThen (readVarOctetString bs1) fun contents bs2 =>
        .ok (t :: len % 256 :: contents, bs2)

/-- `readTransfer`: refused below version 1.1, else an eight-byte amount
pair recombined to a decimal string, then protocol data. -/
def readTransfer (bs : Bytes) (btpVersion : Nat) : DecodeResult BtpData :=
  if btpVersion < BTP_VERSION_1_1 then .error .versionUnsupported
  else
    andThen (readUInt64 bs) fun amountPair bs =>
      andThen (readProtocolData bs) fun protocolData bs =>
        .ok (.transfer (twoNumbersToString amountPair) protocolData, bs)

/-- `readError`: in version Alpha an embedded rejection reason, otherwise
the structured code/name/triggeredAt/data payload; then protocol data. -/
def readError (bs : Bytes) (btpVersion : Nat) : DecodeResult BtpData :=
  if btpVersion = BTP_VERSION_ALPHA then
    andThen (readIlpError bs) fun rejectionReason bs =>
      andThen (readProtocolData bs) fun protocolData bs =>
        .ok (.errorAlpha rejectionReason protocolData, bs)
  else
    andThen (readBytes 3 bs) fun code bs =>
      andThen (readVarOctetString bs) fun name bs =>
        andThen (readGeneralizedTime bs) fun triggeredAt bs =>
          andThen (readVarOctetString bs) fun dataStr bs =>
            andThen (readProtocolData bs) fun protocolData bs =>
              .ok (.error code name triggeredAt dataStr protocolData, bs)

/-- `readPrepare`: 16-byte transfer id, eight-byte amount pair, 32-byte
condition, timestamp, protocol data. -/
def readPrepare (bs : Bytes) : DecodeResult BtpData :=
  andThen (readBytes 16 bs) fun transferId bs =>
    andThen (readUInt64 bs) fun amountPair bs =>
      andThen (readBytes 32 bs) fun executionCondition bs =>
        andThen (readGeneralizedTime bs) fun expiresAt bs =>
          andThen (readProtocolData bs) fun protocolData bs =>
            .ok (.prepare transferId (twoNumbersToString amountPair)
              executionCondition expiresAt protocolData, bs)

/-- `readFulfill`: 16-byte transfer id, 32-byte fulfillment, protocol data. -/
def readFulfill (bs : Bytes) : DecodeResult BtpData :=
  andThen (readBytes 16 bs) fun transferId bs =>
    andThen (readBytes 32 bs) fun fulfillment bs =>
      andThen (readProtocolData bs) fun protocolData bs =>
        .ok (.fulfill transferId fulfillment protocolData, bs)

/-- `readReject`: 16-byte transfer id, in version Alpha an embedded
rejection reason, then protocol data. -/
def readReject (bs : Bytes) (btpVersion : Nat) : DecodeResult BtpData :=
  andThen (readBytes 16 bs) fun transferId bs =>
    if btpVersion = BTP_VERSION_ALPHA then
      andThen (readIlpError bs) fun rejectionReason bs =>
        andThen (readProtocolData bs) fun protocolData bs =>
          .ok (.rejectAlpha transferId rejectionReason protocolData, bs)
    else
      andThen (readProtocolData bs) fun protocolData bs =>
        .ok (.reject transferId protocolData, bs)

/-- The envelope fields every packet starts with. -/
structure Envelope where
  type : Nat
  requestId : Nat
  data : Bytes
deriving DecidableEq, Repr

/-- `readEnvelope`: type byte, four-byte request id, var-octet-string
payload. (The versioned module inlines these reads in `deserialize`;
`src/index.js` names them `readEnvelope`.) -/
def readEnvelope (envelope : Bytes) : DecodeResult Envelope :=
  andThen (readUInt8 envelope) fun type bs =>
    andThen (readUInt32 bs) fun requestId bs =>
      andThen (readVarOctetString bs) fun data bs =>
        .ok (⟨type, requestId, data⟩, bs)

/-- The `switch (type)` of `deserialize`, applied to the envelope fields:
undo the version's type-code shift and read the payload from the envelope's
data bytes. Unread bytes inside the payload body are ignored, as in the
source. -/
def deserializeData (env : Envelope) (btpVersion : Nat) :
    Except DecodeError BtpPacket :=
  let type : Int := typeFromVersion env.type btpVersion
  if type = (TYPE_ACK : Nat) ∨ type = (TYPE_RESPONSE : Nat) ∨
      type = (TYPE_MESSAGE : Nat) then
    if btpVersion = BTP_VERSION_ALPHA then
      match readProtocolData env.data with
      | .ok (pd, _) => .ok ⟨type.toNat, env.requestId, .bare pd⟩
      | .error e => .error e
    else
      match readProtocolData env.data with
      | .ok (pd, _) => .ok ⟨type.toNat, env.requestId, .wrapped pd⟩
      | .error e => .error e
  else if type = (TYPE_TRANSFER : Nat) then
    match readTransfer env.data btpVersion with
    | .ok (d, _) => .ok ⟨type.toNat, env.requestId, d⟩
    | .error e => .error e
  else if type = (TYPE_ERROR : Nat) then
    match readError env.data btpVersion with
    | .ok (d, _) => .ok ⟨type.toNat, env.requestId, d⟩
    | .error e => .error e
  else if type = (TYPE_PREPARE : Nat) then
    match readPrepare env.data with
    | .ok (d, _) => .ok ⟨type.toNat, env.requestId, d⟩
    | .error e => .error e
  else if type = (TYPE_FULFILL : Nat) then
    match readFulfill env.data with
    | .ok (d, _) => .ok ⟨type.toNat, env.requestId, d⟩
    | .error e => .error e
  else if type = (TYPE_REJECT : Nat) then
    match readReject env.data btpVersion with
    | .ok (d, _) => .ok ⟨type.toNat, env.requestId, d⟩
    | .error e => .error e
  else .error .unrecognizedType

/-- `deserialize(buffer, btpVersion)`: read the envelope (ignoring any
bytes after its declared payload length) and dispatch on the type. -/
def deserialize (buffer : Bytes) (btpVersion : Nat) :
    Except DecodeError BtpPacket :=
  match readEnvelope buffer with
  | .ok (env, _) => deserializeData env btpVersion
  | .error e => .error e

/-! ## The legacy TypeScript v1 `writeError` (optional `code` field) -/

/-- JavaScript truthiness of an optional string: both a missing field and
the empty string are falsy. -/
def jsTruthy : Option Bytes → Bool
  | none => false
  | some [] => false
  | some (_ :: _) => true

/-- The TypeScript v1 module's `writeError`, whose `code` field is
optional: `if (data.code && data.code.length !== 3) throw`, then
`Buffer.from(data.code || 'F00')` — a falsy `code` (missing or empty)
skips the length check and falls back to the default `'F00'`
(bytes `[70, 48, 48]`). `triggeredAt` defaults to `new Date()` in the
source; the date is passed explicitly here (no claim exercises the
default). -/
def writeErrorOptionalCode (code : Option Bytes) (name : Bytes)
    (triggeredAt : JsDate) (dataStr : Bytes)
    (protocolData : List BtpSubProtocol) : Except DecodeError Bytes :=
  if jsTruthy code = true ∧ (code.getD []).length ≠ 3 then
    .error .invalidErrorCode
  else
    match toGeneralizedTimeBuffer triggeredAt with
    | .ok t =>
      .ok ((if jsTruthy code then code.getD [] else [70, 48, 48]) ++
        writeVarOctetString name ++ writeVarOctetString t ++
        writeVarOctetString dataStr ++ writeProtocolData protocolData)
    | .error e => .error e

/-! ## Well-formed packets -/

/-- An amount as the API accepts it: the canonical decimal string of an
unsigned 64-bit value. -/
def WfAmount (s : Bytes) : Prop := ∃ n, n < 2 ^ 64 ∧ s = natToDecimal n

/-- A date the API can carry: a real calendar instant. -/
def WfDate : JsDate → Prop
  | .valid c => ValidComponents c
  | .fromRaw _ => False

/-- An embedded rejection-reason blob that survives `readIlpError`'s
re-framing: a type byte, a short-form (below 128) length byte, and exactly
that many content bytes. -/
def WfRejectionReason (b : Bytes) : Prop :=
  ∃ t c, b = t :: List.length c :: c ∧ List.length c < 128

/-- A packet the serializer accepts for the given version, carrying the
payload shape that version's deserializer reproduces. -/
def WfPacket (obj : BtpPacket) (v : Nat) : Prop :=
  obj.requestId < 2 ^ 32 ∧
  match obj.data with
  | .bare pd => v = BTP_VERSION_ALPHA ∧
      (obj.type = TYPE_ACK ∨ obj.type = TYPE_RESPONSE ∨ obj.type = TYPE_MESSAGE) ∧
      WfProtocolData pd
  | .wrapped pd => (v = BTP_VERSION_1 ∨ v = BTP_VERSION_1_1) ∧
      (obj.type = TYPE_ACK ∨ obj.type = TYPE_RESPONSE ∨ obj.type = TYPE_MESSAGE) ∧
      WfProtocolData pd
  | .transfer amount pd => v = BTP_VERSION_1_1 ∧ obj.type = TYPE_TRANSFER ∧
      WfAmount amount ∧ WfProtocolData pd
  | .error code name triggeredAt dataStr pd =>
      (v = BTP_VERSION_1 ∨ v = BTP_VERSION_1_1) ∧ obj.type = TYPE_ERROR ∧
      code.length = 3 ∧ name.length < 2 ^ 32 ∧ WfDate triggeredAt ∧
      dataStr.length < 2 ^ 32 ∧ WfProtocolData pd
  | .errorAlpha rejectionReason pd => v = BTP_VERSION_ALPHA ∧
      obj.type = TYPE_ERROR ∧ WfRejectionReason rejectionReason ∧
      WfProtocolData pd
  | .prepare transferId amount executionCondition expiresAt pd =>
      (v = BTP_VERSION_ALPHA ∨ v = BTP_VERSION_1 ∨ v = BTP_VERSION_1_1) ∧
      obj.type = TYPE_PREPARE ∧ transferId.length = 16 ∧ WfAmount amount ∧
      executionCondition.length = 32 ∧ WfDate expiresAt ∧ WfProtocolData pd
  | .fulfill transferId fulfillment pd =>
      (v = BTP_VERSION_ALPHA ∨ v = BTP_VERSION_1 ∨ v = BTP_VERSION_1_1) ∧
      obj.type = TYPE_FULFILL ∧ transferId.length = 16 ∧
      fulfillment.length = 32 ∧ WfProtocolData pd
  | .reject transferId pd => (v = BTP_VERSION_1 ∨ v = BTP_VERSION_1_1) ∧
      obj.type = TYPE_REJECT ∧ transferId.length = 16 ∧ WfProtocolData pd
  | .rejectAlpha transferId rejectionReason pd => v = BTP_VERSION_ALPHA ∧
      obj.type = TYPE_REJECT ∧ transferId.length = 16 ∧
      WfRejectionReason rejectionReason ∧ WfProtocolData pd

/-! ## Short-form var-octet-strings and the embedded-error re-framing -/

theorem readLengthPrefixOer_small {n : Nat} (rest : Bytes) (h : n < 128) :
    readLengthPrefixOer (n :: rest) = .ok (n, rest) := by
  rw [readLengthPrefixOer, andThen_ok _ (readUInt8_cons n rest), if_pos h]

theorem readVarOctetString_small {b : Bytes} (rest : Bytes)
    (h : b.length < 128) :
    readVarOctetString (b.length :: (b ++ rest)) = .ok (b, rest) := by
  rw [readVarOctetString, andThen_ok _ (readLengthPrefixOer_small _ h)]
  exact readBytes_exact b rest

theorem readIlpError_write {rr : Bytes} (rest : Bytes)
    (h : WfRejectionReason rr) :
    readIlpError (rr ++ rest) = .ok (rr, rest) := by
  obtain ⟨t, c, rfl, hlen⟩ := h
  rw [List.cons_append, List.cons_append, readIlpError,
    andThen_ok _ (readUInt8_cons _ _),
    andThen_ok _ (readLengthPrefixOer_small _ hlen),
    andThen_ok _ (readVarOctetString_small _ hlen),
    Nat.mod_eq_of_lt (by omega : List.length c < 256)]

/-! ## Amount round trip -/

theorem stringToTwoNumbers_natToDecimal (n : Nat) :
    stringToTwoNumbers (natToDecimal n) =
      (n / HIGH_WORD_MULTIPLIER, n % HIGH_WORD_MULTIPLIER) := by
  simp [stringToTwoNumbers, decimalToNat_natToDecimal]

theorem twoNumbersToString_stringToTwoNumbers {s : Bytes} (h : WfAmount s) :
    twoNumbersToString (stringToTwoNumbers s) = s := by
  obtain ⟨n, hn, rfl⟩ := h
  rw [stringToTwoNumbers_natToDecimal, twoNumbersToString]
  have : n / HIGH_WORD_MULTIPLIER * HIGH_WORD_MULTIPLIER +
      n % HIGH_WORD_MULTIPLIER = n := by
    unfold HIGH_WORD_MULTIPLIER
    omega
  rw [this]

theorem readUInt64_write_amount {s : Bytes} (rest : Bytes) (h : WfAmount s) :
    readUInt64 (writeUInt64 (stringToTwoNumbers s) ++ rest) =
      .ok (stringToTwoNumbers s, rest) := by
  obtain ⟨n, hn, rfl⟩ := h
  rw [stringToTwoNumbers_natToDecimal]
  have hhi : n / HIGH_WORD_MULTIPLIER < 2 ^ 32 := by
    unfold HIGH_WORD_MULTIPLIER
    omega
  have hlo : n % HIGH_WORD_MULTIPLIER < 2 ^ 32 := by
    unfold HIGH_WORD_MULTIPLIER
    omega
  exact readUInt64_writeUInt64 rest hhi hlo

/-! ## Per-payload round trips -/

theorem readTransfer_write {amount : Bytes} {pd : List BtpSubProtocol}
    (rest : Bytes) (ha : WfAmount amount) (hpd : WfProtocolData pd) :
    readTransfer
      (writeUInt64 (stringToTwoNumbers amount) ++ writeProtocolData pd ++ rest)
      BTP_VERSION_1_1 = .ok (.transfer amount pd, rest) := by
  rw [readTransfer, if_neg (by omega), List.append_assoc,
    andThen_ok _ (readUInt64_write_amount _ ha),
    andThen_ok _ (readProtocolData_write _ hpd),
    twoNumbersToString_stringToTwoNumbers ha]

theorem lt_256pow127_of_le_2pow71 {x : Nat} (h : x ≤ 2 ^ 71) :
    x < 256 ^ 127 := by
  have hpow : (256 : Nat) ^ 127 = 2 ^ 1016 := by
    rw [show (256 : Nat) = 2 ^ 8 by norm_num, ← Nat.pow_mul]
  have hlt : (2 : Nat) ^ 71 < 2 ^ 1016 :=
    Nat.pow_lt_pow_right (by norm_num) (by norm_num)
  omega

theorem lt_256pow127_of_lt_2pow32 {x : Nat} (h : x < 2 ^ 32) :
    x < 256 ^ 127 := by
  refine lt_256pow127_of_le_2pow71 ?_
  have h71 : (2 : Nat) ^ 32 ≤ 2 ^ 71 := Nat.pow_le_pow_right (by norm_num) (by norm_num)
  omega

theorem readError_write {code name dataStr : Bytes} {c : DateComponents}
    {pd : List BtpSubProtocol} {v : Nat} (rest : Bytes)
    (hv : v ≠ BTP_VERSION_ALPHA) (hcode : code.length = 3)
    (hname : name.length < 2 ^ 32) (hc : ValidComponents c)
    (hdata : dataStr.length < 2 ^ 32) (hpd : WfProtocolData pd) :
    readError
      (code ++ writeVarOctetString name ++
        writeVarOctetString (toGeneralizedTimeBytes c) ++
        writeVarOctetString dataStr ++ writeProtocolData pd ++ rest) v =
      .ok (.error code name (.valid c) dataStr pd, rest) := by
  have hnl : name.length < 256 ^ 127 := lt_256pow127_of_lt_2pow32 hname
  have hdl : dataStr.length < 256 ^ 127 := lt_256pow127_of_lt_2pow32 hdata
  rw [readError, if_neg hv, List.append_assoc, List.append_assoc,
    List.append_assoc, List.append_assoc,
    andThen_ok _ (readBytes_of_length_eq _ _ hcode),
    andThen_ok _ (readVarOctetString_write _ hnl),
    andThen_ok _ (readGeneralizedTime_write _ hc),
    andThen_ok _ (readVarOctetString_write _ hdl),
    andThen_ok _ (readProtocolData_write _ hpd)]

theorem readFulfill_write {transferId fulfillment : Bytes}
    {pd : List BtpSubProtocol} (rest : Bytes) (ht : transferId.length = 16)
    (hf : fulfillment.length = 32) (hpd : WfProtocolData pd) :
    readFulfill (transferId ++ fulfillment ++ writeProtocolData pd ++ rest) =
      .ok (.fulfill transferId fulfillment pd, rest) := by
  rw [readFulfill, List.append_assoc, List.append_assoc,
    andThen_ok _ (readBytes_of_length_eq _ _ ht),
    andThen_ok _ (readBytes_of_length_eq _ _ hf),
    andThen_ok _ (readProtocolData_write _ hpd)]

theorem readErrorAlpha_write {rr : Bytes} {pd : List BtpSubProtocol}
    (rest : Bytes) (hrr : WfRejectionReason rr) (hpd : WfProtocolData pd) :
    readError (rr ++ writeProtocolData pd ++ rest) BTP_VERSION_ALPHA =
      .ok (.errorAlpha rr pd, rest) := by
  rw [readError, if_pos rfl, List.append_assoc,
    andThen_ok _ (readIlpError_write _ hrr),
    andThen_ok _ (readProtocolData_write _ hpd)]

theorem readPrepare_write {transferId amount executionCondition : Bytes}
    {c : DateComponents} {pd : List BtpSubProtocol} (rest : Bytes)
    (ht : transferId.length = 16) (ha : WfAmount amount)
    (hcond : executionCondition.length = 32) (hc : ValidComponents c)
    (hpd : WfProtocolData pd) :
    readPrepare
      (transferId ++ writeUInt64 (stringToTwoNumbers amount) ++
        executionCondition ++ writeVarOctetString (toGeneralizedTimeBytes c) ++
        writeProtocolData pd ++ rest) =
      .ok (.prepare transferId amount executionCondition (.valid c) pd, rest) := by
  rw [readPrepare, List.append_assoc, List.append_assoc, List.append_assoc,
    List.append_assoc, andThen_ok _ (readBytes_of_length_eq _ _ ht),
    andThen_ok _ (readUInt64_write_amount _ ha),
    andThen_ok _ (readBytes_of_length_eq _ _ hcond),
    andThen_ok _ (readGeneralizedTime_write _ hc),
    andThen_ok _ (readProtocolData_write _ hpd),
    twoNumbersToString_stringToTwoNumbers ha]

theorem readReject_write {transferId : Bytes} {pd : List BtpSubProtocol}
    {v : Nat} (rest : Bytes) (hv : v ≠ BTP_VERSION_ALPHA)
    (ht : transferId.length = 16) (hpd : WfProtocolData pd) :
    readReject (transferId ++ writeProtocolData pd ++ rest) v =
      .ok (.reject transferId pd, rest) := by
  rw [readReject, List.append_assoc, andThen_ok _ (readBytes_of_length_eq _ _ ht),
    if_neg hv, andThen_ok _ (readProtocolData_write _ hpd)]

theorem readRejectAlpha_write {transferId rr : Bytes}
    {pd : List BtpSubProtocol} (rest : Bytes) (ht : transferId.length = 16)
    (hrr : WfRejectionReason rr) (hpd : WfProtocolData pd) :
    readReject (transferId ++ rr ++ writeProtocolData pd ++ rest)
      BTP_VERSION_ALPHA = .ok (.rejectAlpha transferId rr pd, rest) := by
  rw [readReject, List.append_assoc, List.append_assoc,
    andThen_ok _ (readBytes_of_length_eq _ _ ht), if_pos rfl,
    andThen_ok _ (readIlpError_write _ hrr),
    andThen_ok _ (readProtocolData_write _ hpd)]

/-! ## Envelope round trip -/

theorem readEnvelope_write {t rid : Nat} {contents : Bytes} (ht : t < 256)
    (hrid : rid < 2 ^ 32) (hc : contents.length < 256 ^ 127) :
    readEnvelope (writeUInt8 t ++ writeUInt32 rid ++
      writeVarOctetString contents) = .ok (⟨t, rid, contents⟩, []) := by
  have hrid4 : rid < 256 ^ 4 := by
    have : (2 : Nat) ^ 32 = 256 ^ 4 := by norm_num
    omega
  rw [readEnvelope, writeUInt8, Nat.mod_eq_of_lt ht, List.append_assoc,
    List.cons_append, List.nil_append, andThen_ok _ (readUInt8_cons _ _),
    readUInt32, writeUInt32, andThen_ok _ (readUIntBE_writeUIntBE_of_lt _ hrid4),
    ← List.append_nil (writeVarOctetString contents),
    andThen_ok _ (readVarOctetString_write _ hc)]

theorem readEnvelope_write_nil {t rid : Nat} {contents : Bytes} (ht : t < 256)
    (hrid : rid < 2 ^ 32) (hc : contents.length < 256 ^ 127) :
    readEnvelope (writeUInt8 t ++ (writeUInt32 rid ++
      writeVarOctetString contents)) = .ok (⟨t, rid, contents⟩, []) := by
  rw [← List.append_assoc]
  exact readEnvelope_write ht hrid hc

/-! ## Serialize/deserialize round trip -/

theorem typeToVersion_lt_256 {t : Nat} (v : Nat) (h : t ≤ 7) :
    typeToVersion t v < 256 := by
  unfold typeToVersion
  split_ifs <;> omega

theorem readProtocolData_write_nil {pd : List BtpSubProtocol}
    (hpd : WfProtocolData pd) :
    readProtocolData (writeProtocolData pd) = .ok (pd, []) := by
  have := readProtocolData_write [] hpd
  rwa [List.append_nil] at this

theorem writeProtocolData_lt_256pow127 {pd : List BtpSubProtocol}
    (hpd : WfProtocolData pd) :
    (writeProtocolData pd).length < 256 ^ 127 :=
  lt_256pow127_of_le_2pow71
    (le_trans (writeProtocolData_length_le hpd) (by norm_num))

@[simp] theorem writeUInt64_length (p : Nat × Nat) :
    (writeUInt64 p).length = 8 := by
  simp [writeUInt64]

/-- For every well-formed packet and supported version, serialization
succeeds and deserializing the result returns the original packet. -/
theorem serialize_deserialize {obj : BtpPacket} {v : Nat} (h : WfPacket obj v) :
    ∃ bytes, serialize obj v = .ok bytes ∧ deserialize bytes v = .ok obj := by
  obtain ⟨t, rid, data⟩ := obj
  obtain ⟨hreq, hdata⟩ := h
  replace hreq : rid < 2 ^ 32 := hreq
  cases data with
  | bare pd =>
    obtain ⟨hv, htype, hpd⟩ := hdata
    subst hv
    have ht7 : t ≤ 7 := by
      rcases htype with rfl | rfl | rfl <;> decide
    have hcont : writeContents ⟨t, rid, .bare pd⟩ BTP_VERSION_ALPHA =
        .ok (writeProtocolData pd) := by
      simp only [writeContents]
      rw [if_pos htype, if_pos trivial]
    have hser : serialize ⟨t, rid, .bare pd⟩ BTP_VERSION_ALPHA = .ok
        (writeUInt8 (typeToVersion t BTP_VERSION_ALPHA) ++ writeUInt32 rid ++
          writeVarOctetString (writeProtocolData pd)) := by
      simp only [serialize, hcont]
    have henv := readEnvelope_write (t := typeToVersion t BTP_VERSION_ALPHA)
      (typeToVersion_lt_256 _ ht7) hreq (writeProtocolData_lt_256pow127 hpd)
    have htypeI : ((t : Int) = (TYPE_ACK : Nat) ∨ (t : Int) = (TYPE_RESPONSE : Nat) ∨
        (t : Int) = (TYPE_MESSAGE : Nat)) := by
      rcases htype with rfl | rfl | rfl <;> simp
    refine ⟨_, hser, ?_⟩
    simp only [deserialize, henv, deserializeData, typeFromVersion_typeToVersion]
    rw [if_pos htypeI, if_pos trivial]
    simp [readProtocolData_write_nil hpd]
  | wrapped pd =>
    obtain ⟨hv, htype, hpd⟩ := hdata
    have hva : v ≠ BTP_VERSION_ALPHA := by
      rcases hv with rfl | rfl <;> decide
    have ht7 : t ≤ 7 := by
      rcases htype with rfl | rfl | rfl <;> decide
    have hcont : writeContents ⟨t, rid, .wrapped pd⟩ v =
        .ok (writeProtocolData pd) := by
      simp only [writeContents]
      rw [if_pos htype, if_neg hva]
    have hser : serialize ⟨t, rid, .wrapped pd⟩ v = .ok
        (writeUInt8 (typeToVersion t v) ++ writeUInt32 rid ++
          writeVarOctetString (writeProtocolData pd)) := by
      simp only [serialize, hcont]
    have henv := readEnvelope_write (t := typeToVersion t v)
      (typeToVersion_lt_256 _ ht7) hreq (writeProtocolData_lt_256pow127 hpd)
    have htypeI : ((t : Int) = (TYPE_ACK : Nat) ∨ (t : Int) = (TYPE_RESPONSE : Nat) ∨
        (t : Int) = (TYPE_MESSAGE : Nat)) := by
      rcases htype with rfl | rfl | rfl <;> simp
    refine ⟨_, hser, ?_⟩
    simp only [deserialize, henv, deserializeData, typeFromVersion_typeToVersion]
    rw [if_pos htypeI, if_neg hva]
    simp [readProtocolData_write_nil hpd]
  | transfer amount pd =>
    obtain ⟨hv, htype, ha, hpd⟩ := hdata
    subst hv
    subst htype
    have hcont : writeContents ⟨TYPE_TRANSFER, rid, .transfer amount pd⟩
        BTP_VERSION_1_1 =
        .ok (writeUInt64 (stringToTwoNumbers amount) ++ writeProtocolData pd) := by
      simp only [writeContents, writeTransfer]
      rw [if_neg (by decide), if_pos trivial, if_neg (by decide)]
    have hser : serialize ⟨TYPE_TRANSFER, rid, .transfer amount pd⟩
        BTP_VERSION_1_1 = .ok
        (writeUInt8 (typeToVersion TYPE_TRANSFER BTP_VERSION_1_1) ++
          writeUInt32 rid ++ writeVarOctetString
            (writeUInt64 (stringToTwoNumbers amount) ++ writeProtocolData pd)) := by
      simp only [serialize, hcont]
    have hclen : (writeUInt64 (stringToTwoNumbers amount) ++
        writeProtocolData pd).length < 256 ^ 127 := by
      refine lt_256pow127_of_le_2pow71 ?_
      have h1 := writeProtocolData_length_le hpd
      simp only [List.length_append, writeUInt64_length]
      have hbig : (8 : Nat) + 2 ^ 70 ≤ 2 ^ 71 := by norm_num
      omega
    have henv := readEnvelope_write
      (t := typeToVersion TYPE_TRANSFER BTP_VERSION_1_1)
      (typeToVersion_lt_256 _ (by decide)) hreq hclen
    have hread : readTransfer (writeUInt64 (stringToTwoNumbers amount) ++
        writeProtocolData pd) BTP_VERSION_1_1 =
        .ok (.transfer amount pd, []) := by
      have := readTransfer_write [] ha hpd
      rwa [List.append_nil] at this
    refine ⟨_, hser, ?_⟩
    simp only [deserialize, henv, deserializeData, typeFromVersion_typeToVersion]
    rw [if_neg (by decide), if_pos (by decide)]
    try simp only [List.append_assoc] at hread
    simp [hread]
  | error code name triggeredAt dataStr pd =>
    obtain ⟨hv, htype, hcode, hname, hdate, hdataStr, hpd⟩ := hdata
    subst htype
    cases triggeredAt with
    | fromRaw s => exact absurd hdate (by simp [WfDate])
    | valid c =>
      have hcv : ValidComponents c := hdate
      have hva : v ≠ BTP_VERSION_ALPHA := by
        rcases hv with rfl | rfl <;> decide
      have hcont : writeContents ⟨TYPE_ERROR, rid,
          .error code name (.valid c) dataStr pd⟩ v =
          .ok (code ++ writeVarOctetString name ++
            writeVarOctetString (toGeneralizedTimeBytes c) ++
            writeVarOctetString dataStr ++ writeProtocolData pd) := by
        simp only [writeContents, writeError, toGeneralizedTimeBuffer]
        rw [if_neg (by decide), if_neg (by decide), if_pos trivial, if_neg hva,
          if_neg (by omega)]
      have hser : serialize ⟨TYPE_ERROR, rid,
          .error code name (.valid c) dataStr pd⟩ v = .ok
          (writeUInt8 (typeToVersion TYPE_ERROR v) ++ writeUInt32 rid ++
            writeVarOctetString (code ++ writeVarOctetString name ++
              writeVarOctetString (toGeneralizedTimeBytes c) ++
              writeVarOctetString dataStr ++ writeProtocolData pd)) := by
        simp only [serialize, hcont]
      have hclen : (code ++ writeVarOctetString name ++
          writeVarOctetString (toGeneralizedTimeBytes c) ++
          writeVarOctetString dataStr ++ writeProtocolData pd).length
          < 256 ^ 127 := by
        refine lt_256pow127_of_le_2pow71 ?_
        have h1 := writeProtocolData_length_le hpd
        have h2 := writeVarOctetString_length_le name
        have h3 := writeVarOctetString_length_le (toGeneralizedTimeBytes c)
        have h4 := writeVarOctetString_length_le dataStr
        rw [toGeneralizedTimeBytes_length] at h3
        simp only [List.length_append]
        have hbig : (3 : Nat) + (2 * 2 ^ 32 + 2) + 40 + (2 * 2 ^ 32 + 2) +
            2 ^ 70 ≤ 2 ^ 71 := by norm_num
        omega
      have henv := readEnvelope_write (t := typeToVersion TYPE_ERROR v)
        (typeToVersion_lt_256 _ (by decide)) hreq hclen
      have hread : readError (code ++ writeVarOctetString name ++
          writeVarOctetString (toGeneralizedTimeBytes c) ++
          writeVarOctetString dataStr ++ writeProtocolData pd) v =
          .ok (.error code name (.valid c) dataStr pd, []) := by
        have := readError_write [] hva hcode hname hcv hdataStr hpd
        rwa [List.append_nil] at this
      refine ⟨_, hser, ?_⟩
      simp only [deserialize, henv, deserializeData, typeFromVersion_typeToVersion]
      rw [if_neg (by decide), if_neg (by decide), if_pos (by decide)]
      try simp only [List.append_assoc] at hread
      simp [hread]
  | errorAlpha rr pd =>
    obtain ⟨hv, htype, hrr, hpd⟩ := hdata
    subst hv
    subst htype
    have hcont : writeContents ⟨TYPE_ERROR, rid, .errorAlpha rr pd⟩
        BTP_VERSION_ALPHA = .ok (rr ++ writeProtocolData pd) := by
      simp only [writeContents, writeError]
      rw [if_neg (by decide), if_neg (by decide), if_pos trivial, if_pos trivial]
    have hser : serialize ⟨TYPE_ERROR, rid, .errorAlpha rr pd⟩
        BTP_VERSION_ALPHA = .ok
        (writeUInt8 (typeToVersion TYPE_ERROR BTP_VERSION_ALPHA) ++
          writeUInt32 rid ++
          writeVarOctetString (rr ++ writeProtocolData pd)) := by
      simp only [serialize, hcont]
    have hrrlen : rr.length ≤ 129 := by
      obtain ⟨tb, cb, rfl, hc⟩ := hrr
      simp only [List.length_cons]
      omega
    have hclen : (rr ++ writeProtocolData pd).length < 256 ^ 127 := by
      refine lt_256pow127_of_le_2pow71 ?_
      have h1 := writeProtocolData_length_le hpd
      simp only [List.length_append]
      have hbig : (129 : Nat) + 2 ^ 70 ≤ 2 ^ 71 := by norm_num
      omega
    have henv := readEnvelope_write
      (t := typeToVersion TYPE_ERROR BTP_VERSION_ALPHA)
      (typeToVersion_lt_256 _ (by decide)) hreq hclen
    have hread : readError (rr ++ writeProtocolData pd) BTP_VERSION_ALPHA =
        .ok (.errorAlpha rr pd, []) := by
      have := readErrorAlpha_write [] hrr hpd
      rwa [List.append_nil] at this
    refine ⟨_, hser, ?_⟩
    simp only [deserialize, henv, deserializeData, typeFromVersion_typeToVersion]
    rw [if_neg (by decide), if_neg (by decide), if_pos (by decide)]
    try simp only [List.append_assoc] at hread
    simp [hread]
  | prepare transferId amount cond expiresAt pd =>
    obtain ⟨hv, htype, ht16, ha, hcond, hdate, hpd⟩ := hdata
    subst htype
    cases expiresAt with
    | fromRaw s => exact absurd hdate (by simp [WfDate])
    | valid c =>
      have hcv : ValidComponents c := hdate
      have hcont : writeContents ⟨TYPE_PREPARE, rid,
          .prepare transferId amount cond (.valid c) pd⟩ v =
          .ok (transferId ++ writeUInt64 (stringToTwoNumbers amount) ++ cond ++
            writeVarOctetString (toGeneralizedTimeBytes c) ++
            writeProtocolData pd) := by
        simp only [writeContents, writePrepare, toGeneralizedTimeBuffer]
        rw [if_neg (by decide), if_neg (by decide), if_neg (by decide),
          if_pos trivial]
      have hser : serialize ⟨TYPE_PREPARE, rid,
          .prepare transferId amount cond (.valid c) pd⟩ v = .ok
          (writeUInt8 (typeToVersion TYPE_PREPARE v) ++ writeUInt32 rid ++
            writeVarOctetString (transferId ++
              writeUInt64 (stringToTwoNumbers amount) ++ cond ++
              writeVarOctetString (toGeneralizedTimeBytes c) ++
              writeProtocolData pd)) := by
        simp only [serialize, hcont]
      have hclen : (transferId ++ writeUInt64 (stringToTwoNumbers amount) ++
          cond ++ writeVarOctetString (toGeneralizedTimeBytes c) ++
          writeProtocolData pd).length < 256 ^ 127 := by
        refine lt_256pow127_of_le_2pow71 ?_
        have h1 := writeProtocolData_length_le hpd
        have h3 := writeVarOctetString_length_le (toGeneralizedTimeBytes c)
        rw [toGeneralizedTimeBytes_length] at h3
        simp only [List.length_append, writeUInt64_length, ht16, hcond]
        have hbig : (16 : Nat) + 8 + 32 + 40 + 2 ^ 70 ≤ 2 ^ 71 := by norm_num
        omega
      have henv := readEnvelope_write (t := typeToVersion TYPE_PREPARE v)
        (typeToVersion_lt_256 _ (by decide)) hreq hclen
      have hread : readPrepare (transferId ++
          writeUInt64 (stringToTwoNumbers amount) ++ cond ++
          writeVarOctetString (toGeneralizedTimeBytes c) ++
          writeProtocolData pd) =
          .ok (.prepare transferId amount cond (.valid c) pd, []) := by
        have := readPrepare_write [] ht16 ha hcond hcv hpd
        rwa [List.append_nil] at this
      refine ⟨_, hser, ?_⟩
      simp only [deserialize, henv, deserializeData, typeFromVersion_typeToVersion]
      rw [if_neg (by decide), if_neg (by decide), if_neg (by decide),
        if_pos (by decide)]
      try simp only [List.append_assoc] at hread
      simp [hread]
  | fulfill transferId fulfillment pd =>
    obtain ⟨hv, htype, ht16, hf32, hpd⟩ := hdata
    subst htype
    have hcont : writeContents ⟨TYPE_FULFILL, rid,
        .fulfill transferId fulfillment pd⟩ v =
        .ok (transferId ++ fulfillment ++ writeProtocolData pd) := by
      simp only [writeContents, writeFulfill]
      rw [if_neg (by decide), if_neg (by decide), if_neg (by decide),
        if_neg (by decide), if_pos trivial]
    have hser : serialize ⟨TYPE_FULFILL, rid,
        .fulfill transferId fulfillment pd⟩ v = .ok
        (writeUInt8 (typeToVersion TYPE_FULFILL v) ++ writeUInt32 rid ++
          writeVarOctetString
            (transferId ++ fulfillment ++ writeProtocolData pd)) := by
      simp only [serialize, hcont]
    have hclen : (transferId ++ fulfillment ++ writeProtocolData pd).length
        < 256 ^ 127 := by
      refine lt_256pow127_of_le_2pow71 ?_
      have h1 := writeProtocolData_length_le hpd
      simp only [List.length_append, ht16, hf32]
      have hbig : (16 : Nat) + 32 + 2 ^ 70 ≤ 2 ^ 71 := by norm_num
      omega
    have henv := readEnvelope_write (t := typeToVersion TYPE_FULFILL v)
      (typeToVersion_lt_256 _ (by decide)) hreq hclen
    have hread : readFulfill (transferId ++ fulfillment ++
        writeProtocolData pd) =
        .ok (.fulfill transferId fulfillment pd, []) := by
      have := readFulfill_write [] ht16 hf32 hpd
      rwa [List.append_nil] at this
    refine ⟨_, hser, ?_⟩
    simp only [deserialize, henv, deserializeData, typeFromVersion_typeToVersion]
    rw [if_neg (by decide), if_neg (by decide), if_neg (by decide),
      if_neg (by decide), if_pos (by decide)]
    try simp only [List.append_assoc] at hread
    simp [hread]
  | reject transferId pd =>
    obtain ⟨hv, htype, ht16, hpd⟩ := hdata
    subst htype
    have hva : v ≠ BTP_VERSION_ALPHA := by
      rcases hv with rfl | rfl <;> decide
    have hcont : writeContents ⟨TYPE_REJECT, rid, .reject transferId pd⟩ v =
        .ok (transferId ++ writeProtocolData pd) := by
      simp only [writeContents, writeReject]
      rw [if_neg (by decide), if_neg (by decide), if_neg (by decide),
        if_neg (by decide), if_neg (by decide), if_pos trivial, if_neg hva]
    have hser : serialize ⟨TYPE_REJECT, rid, .reject transferId pd⟩ v = .ok
        (writeUInt8 (typeToVersion TYPE_REJECT v) ++ writeUInt32 rid ++
          writeVarOctetString (transferId ++ writeProtocolData pd)) := by
      simp only [serialize, hcont]
    have hclen : (transferId ++ writeProtocolData pd).length < 256 ^ 127 := by
      refine lt_256pow127_of_le_2pow71 ?_
      have h1 := writeProtocolData_length_le hpd
      simp only [List.length_append, ht16]
      have hbig : (16 : Nat) + 2 ^ 70 ≤ 2 ^ 71 := by norm_num
      omega
    have henv := readEnvelope_write (t := typeToVersion TYPE_REJECT v)
      (typeToVersion_lt_256 _ (by decide)) hreq hclen
    have hread : readReject (transferId ++ writeProtocolData pd) v =
        .ok (.reject transferId pd, []) := by
      have := readReject_write [] hva ht16 hpd
      rwa [List.append_nil] at this
    refine ⟨_, hser, ?_⟩
    simp only [deserialize, henv, deserializeData, typeFromVersion_typeToVersion]
    rw [if_neg (by decide), if_neg (by decide), if_neg (by decide),
      if_neg (by decide), if_neg (by decide), if_pos (by decide)]
    try simp only [List.append_assoc] at hread
    simp [hread]
  | rejectAlpha transferId rr pd =>
    obtain ⟨hv, htype, ht16, hrr, hpd⟩ := hdata
    subst hv
    subst htype
    have hcont : writeContents ⟨TYPE_REJECT, rid,
        .rejectAlpha transferId rr pd⟩ BTP_VERSION_ALPHA =
        .ok (transferId ++ rr ++ writeProtocolData pd) := by
      simp only [writeContents, writeReject]
      rw [if_neg (by decide), if_neg (by decide), if_neg (by decide),
        if_neg (by decide), if_neg (by decide), if_pos trivial, if_pos trivial]
    have hser : serialize ⟨TYPE_REJECT, rid,
        .rejectAlpha transferId rr pd⟩ BTP_VERSION_ALPHA = .ok
        (writeUInt8 (typeToVersion TYPE_REJECT BTP_VERSION_ALPHA) ++
          writeUInt32 rid ++
          writeVarOctetString (transferId ++ rr ++ writeProtocolData pd)) := by
      simp only [serialize, hcont]
    have hrrlen : rr.length ≤ 129 := by
      obtain ⟨tb, cb, rfl, hc⟩ := hrr
      simp only [List.length_cons]
      omega
    have hclen : (transferId ++ rr ++ writeProtocolData pd).length
        < 256 ^ 127 := by
      refine lt_256pow127_of_le_2pow71 ?_
      have h1 := writeProtocolData_length_le hpd
      simp only [List.length_append, ht16]
      have hbig : (16 : Nat) + 129 + 2 ^ 70 ≤ 2 ^ 71 := by norm_num
      omega
    have henv := readEnvelope_write
      (t := typeToVersion TYPE_REJECT BTP_VERSION_ALPHA)
      (typeToVersion_lt_256 _ (by decide)) hreq hclen
    have hread : readReject (transferId ++ rr ++ writeProtocolData pd)
        BTP_VERSION_ALPHA = .ok (.rejectAlpha transferId rr pd, []) := by
      have := readRejectAlpha_write [] ht16 hrr hpd
      rwa [List.append_nil] at this
    refine ⟨_, hser, ?_⟩
    simp only [deserialize, henv, deserializeData, typeFromVersion_typeToVersion]
    rw [if_neg (by decide), if_neg (by decide), if_neg (by decide),
      if_neg (by decide), if_neg (by decide), if_pos (by decide)]
    try simp only [List.append_assoc] at hread
    simp [hread]

/-! ## Trailing bytes and unknown types -/

theorem readEnvelope_append {bs : Bytes} {env : Envelope} {r : Bytes} (s : Bytes)
    (h : readEnvelope bs = .ok (env, r)) :
    readEnvelope (bs ++ s) = .ok (env, r ++ s) := by
  rw [readEnvelope] at h ⊢
  cases h8 : readUInt8 bs with
  | error e => rw [andThen_error _ h8] at h; exact absurd h (by simp)
  | ok p =>
    obtain ⟨t, bs1⟩ := p
    rw [andThen_ok _ h8] at h
    rw [andThen_ok _ (readUInt8_append s h8)]
    cases h32 : readUInt32 bs1 with
    | error e => rw [andThen_error _ h32] at h; exact absurd h (by simp)
    | ok p2 =>
      obtain ⟨rid, bs2⟩ := p2
      rw [readUInt32] at h32
      rw [andThen_ok (x := readUInt32 (bs1 ++ s)) _ (readUIntBE_append s h32)]
      rw [andThen_ok (x := readUInt32 bs1) _ h32] at h
      cases hvs : readVarOctetString bs2 with
      | error e => rw [andThen_error _ hvs] at h; exact absurd h (by simp)
      | ok p3 =>
        obtain ⟨dataBuff, bs3⟩ := p3
        rw [andThen_ok _ hvs] at h
        rw [andThen_ok _ (readVarOctetString_append s hvs)]
        simp only [Except.ok.injEq, Prod.mk.injEq] at h ⊢
        exact ⟨h.1, by rw [h.2]⟩

theorem deserialize_append {b : Bytes} {env : Envelope} {r : Bytes} (s : Bytes)
    (v : Nat) (h : readEnvelope b = .ok (env, r)) :
    deserialize (b ++ s) v = deserialize b v := by
  rw [deserialize, deserialize, h, readEnvelope_append s h]

theorem deserializeData_unrecognized {env : Envelope} {v : Nat}
    (hout : typeFromVersion env.type v < 0 ∨ 7 < typeFromVersion env.type v) :
    deserializeData env v = .error .unrecognizedType := by
  have hne : ∀ k : Nat, k ≤ 7 → typeFromVersion env.type v ≠ (k : Int) := by
    intro k hk
    omega
  simp only [deserializeData]
  rw [if_neg, if_neg, if_neg, if_neg, if_neg, if_neg]
  · exact hne TYPE_REJECT (by decide)
  · exact hne TYPE_FULFILL (by decide)
  · exact hne TYPE_PREPARE (by decide)
  · exact hne TYPE_ERROR (by decide)
  · exact hne TYPE_TRANSFER (by decide)
  · push_neg
    refine ⟨hne TYPE_ACK (by decide), hne TYPE_RESPONSE (by decide),
      hne TYPE_MESSAGE (by decide)⟩

theorem deserialize_unrecognized {b : Bytes} {env : Envelope} {r : Bytes}
    {v : Nat} (henv : readEnvelope b = .ok (env, r))
    (hout : typeFromVersion env.type v < 0 ∨ 7 < typeFromVersion env.type v) :
    deserialize b v = .error .unrecognizedType := by
  simp only [deserialize, henv]
  exact deserializeData_unrecognized hout

/-! ## Concrete count widths -/

theorem lengthPrefixLengthPrefix_eq_one_of_lt {n : Nat} (h : n < 256) :
    lengthPrefixLengthPrefix n = 1 := by
  rw [lengthPrefixLengthPrefix_eq_minBytes, minBytes,
    Nat.log_eq_zero_iff.mpr (Or.inl h)]

theorem lengthPrefixLengthPrefix_256 : lengthPrefixLengthPrefix 256 = 2 := by
  rw [lengthPrefixLengthPrefix_eq_minBytes, minBytes,
    Nat.log_eq_of_pow_le_of_lt_pow (m := 1) (by norm_num) (by norm_num)]

theorem lengthPrefixLengthPrefix_65535 : lengthPrefixLengthPrefix 65535 = 2 := by
  rw [lengthPrefixLengthPrefix_eq_minBytes, minBytes,
    Nat.log_eq_of_pow_le_of_lt_pow (m := 1) (by norm_num) (by norm_num)]

theorem lengthPrefixLengthPrefix_65536 : lengthPrefixLengthPrefix 65536 = 3 := by
  rw [lengthPrefixLengthPrefix_eq_minBytes, minBytes,
    Nat.log_eq_of_pow_le_of_lt_pow (m := 2) (by norm_num) (by norm_num)]

/-- For short lists the encoding starts `[1, count, entries...]`. -/
theorem writeProtocolData_small {pd : List BtpSubProtocol} (h : pd.length < 256) :
    writeProtocolData pd =
      1 :: pd.length :: (pd.map writeProtocolDataEntry).flatten := by
  rw [writeProtocolData, lengthPrefixLengthPrefix_eq_one_of_lt h]
  simp [writeUInt8, writeUIntBE, Nat.mod_eq_of_lt h]

/-! ## Claims -/

/-- C1: for every well-formed packet (type in the active version's set,
requestId below `2 ^ 32`, payload fields of the shapes that type requires)
and every supported version, `deserialize (serialize p v) v = p`; in
particular the protocol-data list codec round-trips, preserving entry
count, order, names, content types and exact data bytes. -/
theorem claim_C1_roundTrip {obj : BtpPacket} {v : Nat} (h : WfPacket obj v)
    (pd : List BtpSubProtocol) (rest : Bytes) (hpd : WfProtocolData pd) :
    Except.bind (serialize obj v) (fun bytes => deserialize bytes v) =
      .ok obj ∧
    readProtocolData (writeProtocolData pd ++ rest) = .ok (pd, rest) := by
  obtain ⟨bytes, hs, hd⟩ := serialize_deserialize h
  constructor
  · rw [hs]
    exact hd
  · exact readProtocolData_write rest hpd

theorem claim_C1_witness :
    WfPacket ⟨TYPE_MESSAGE, 1, .wrapped [⟨[105, 108, 112], 0, []⟩]⟩
      BTP_VERSION_1 ∧
    WfProtocolData [⟨[102, 111, 111], 1, [98, 97, 114]⟩] ∧
    (Except.bind
        (serialize ⟨TYPE_MESSAGE, 1, .wrapped [⟨[105, 108, 112], 0, []⟩]⟩
          BTP_VERSION_1)
        (fun bytes => deserialize bytes BTP_VERSION_1) =
      .ok ⟨TYPE_MESSAGE, 1, .wrapped [⟨[105, 108, 112], 0, []⟩]⟩ ∧
      readProtocolData
        (writeProtocolData [⟨[102, 111, 111], 1, [98, 97, 114]⟩] ++ [255]) =
        .ok ([⟨[102, 111, 111], 1, [98, 97, 114]⟩], [255])) := by
  have hwf : WfPacket ⟨TYPE_MESSAGE, 1, .wrapped [⟨[105, 108, 112], 0, []⟩]⟩
      BTP_VERSION_1 :=
    ⟨by decide, Or.inl rfl, Or.inr (Or.inr rfl), by decide⟩
  have hpd : WfProtocolData [⟨[102, 111, 111], 1, [98, 97, 114]⟩] := by decide
  exact ⟨hwf, hpd, claim_C1_roundTrip hwf _ [255] hpd⟩

/-- C2: `writeProtocolData` emits a first byte equal to
`max(1, ceil(log2(count + 1) / 8))`, then the count in exactly that many
big-endian bytes; at counts 0, 1, 255, 256, 65535, 65536 that width is
1, 1, 1, 2, 2, 3 bytes respectively, and `readProtocolData` decodes back
to the same count (indeed the same list). -/
theorem claim_C2_lengthPrefixWidth {pd : List BtpSubProtocol} (rest : Bytes)
    (h : WfProtocolData pd) :
    writeProtocolData pd = lengthPrefixLengthPrefix pd.length ::
      (writeUIntBE pd.length (lengthPrefixLengthPrefix pd.length) ++
        (pd.map writeProtocolDataEntry).flatten) ∧
    (writeUIntBE pd.length (lengthPrefixLengthPrefix pd.length)).length =
      lengthPrefixLengthPrefix pd.length ∧
    lengthPrefixLengthPrefix 0 = 1 ∧ lengthPrefixLengthPrefix 1 = 1 ∧
    lengthPrefixLengthPrefix 255 = 1 ∧ lengthPrefixLengthPrefix 256 = 2 ∧
    lengthPrefixLengthPrefix 65535 = 2 ∧ lengthPrefixLengthPrefix 65536 = 3 ∧
    readProtocolData (writeProtocolData pd ++ rest) = .ok (pd, rest) := by
  have hl : lengthPrefixLengthPrefix pd.length < 256 := by
    rw [lengthPrefixLengthPrefix_eq_minBytes]
    have := minBytes_le_four h.1
    omega
  refine ⟨?_, writeUIntBE_length _ _,
    lengthPrefixLengthPrefix_eq_one_of_lt (by norm_num),
    lengthPrefixLengthPrefix_eq_one_of_lt (by norm_num),
    lengthPrefixLengthPrefix_eq_one_of_lt (by norm_num),
    lengthPrefixLengthPrefix_256, lengthPrefixLengthPrefix_65535,
    lengthPrefixLengthPrefix_65536, readProtocolData_write rest h⟩
  rw [writeProtocolData, writeUInt8, Nat.mod_eq_of_lt hl]
  simp

theorem claim_C2_witness :
    WfProtocolData [⟨[105, 108, 112], 0, []⟩] ∧
    lengthPrefixLengthPrefix 0 = 1 ∧ lengthPrefixLengthPrefix 65536 = 3 ∧
    readProtocolData (writeProtocolData [⟨[105, 108, 112], 0, []⟩] ++ [9]) =
      .ok ([⟨[105, 108, 112], 0, []⟩], [9]) := by
  have h : WfProtocolData [⟨[105, 108, 112], 0, []⟩] := by decide
  have happ := claim_C2_lengthPrefixWidth [9] h
  exact ⟨h, happ.2.2.1, happ.2.2.2.2.2.2.2.1, happ.2.2.2.2.2.2.2.2⟩

/-- C3: serializing, in the v1/1.1 generation, a MESSAGE with
`requestId = 1` and the four protocol-data entries
("ilp", 0, empty), ("foo", 0, "bar"), ("beep", 1, "boop"),
("json", 2, two-byte JSON braces) produces exactly the 43-byte vector. -/
theorem claim_C3_messageVector :
    serialize ⟨TYPE_MESSAGE, 1, .wrapped
      [⟨[105, 108, 112], 0, []⟩, ⟨[102, 111, 111], 0, [98, 97, 114]⟩,
       ⟨[98, 101, 101, 112], 1, [98, 111, 111, 112]⟩,
       ⟨[106, 115, 111, 110], 2, [123, 125]⟩]⟩ BTP_VERSION_1 =
      .ok [6, 0, 0, 0, 1, 37, 1, 4, 3, 105, 108, 112, 0, 0, 3, 102, 111, 111,
        0, 3, 98, 97, 114, 4, 98, 101, 101, 112, 1, 4, 98, 111, 111, 112, 4,
        106, 115, 111, 110, 2, 2, 123, 125] ∧
    serialize ⟨TYPE_MESSAGE, 1, .wrapped
      [⟨[105, 108, 112], 0, []⟩, ⟨[102, 111, 111], 0, [98, 97, 114]⟩,
       ⟨[98, 101, 101, 112], 1, [98, 111, 111, 112]⟩,
       ⟨[106, 115, 111, 110], 2, [123, 125]⟩]⟩ BTP_VERSION_1_1 =
      .ok [6, 0, 0, 0, 1, 37, 1, 4, 3, 105, 108, 112, 0, 0, 3, 102, 111, 111,
        0, 3, 98, 97, 114, 4, 98, 101, 101, 112, 1, 4, 98, 111, 111, 112, 4,
        106, 115, 111, 110, 2, 2, 123, 125] := by
  have hpd : writeProtocolData
      [⟨[105, 108, 112], 0, []⟩, ⟨[102, 111, 111], 0, [98, 97, 114]⟩,
       ⟨[98, 101, 101, 112], 1, [98, 111, 111, 112]⟩,
       ⟨[106, 115, 111, 110], 2, [123, 125]⟩] =
      [1, 4, 3, 105, 108, 112, 0, 0, 3, 102, 111, 111, 0, 3, 98, 97, 114, 4,
        98, 101, 101, 112, 1, 4, 98, 111, 111, 112, 4, 106, 115, 111, 110, 2,
        2, 123, 125] := by
    rw [writeProtocolData_small (by norm_num)]
    rfl
  constructor
  · have hcont : writeContents ⟨TYPE_MESSAGE, 1, .wrapped
        [⟨[105, 108, 112], 0, []⟩, ⟨[102, 111, 111], 0, [98, 97, 114]⟩,
         ⟨[98, 101, 101, 112], 1, [98, 111, 111, 112]⟩,
         ⟨[106, 115, 111, 110], 2, [123, 125]⟩]⟩ BTP_VERSION_1 =
        .ok (writeProtocolData
          [⟨[105, 108, 112], 0, []⟩, ⟨[102, 111, 111], 0, [98, 97, 114]⟩,
           ⟨[98, 101, 101, 112], 1, [98, 111, 111, 112]⟩,
           ⟨[106, 115, 111, 110], 2, [123, 125]⟩]) := by
      simp only [writeContents]
      rw [if_pos (by decide), if_neg (by decide)]
    simp only [serialize, hcont, hpd]
    rfl
  · have hcont : writeContents ⟨TYPE_MESSAGE, 1, .wrapped
        [⟨[105, 108, 112], 0, []⟩, ⟨[102, 111, 111], 0, [98, 97, 114]⟩,
         ⟨[98, 101, 101, 112], 1, [98, 111, 111, 112]⟩,
         ⟨[106, 115, 111, 110], 2, [123, 125]⟩]⟩ BTP_VERSION_1_1 =
        .ok (writeProtocolData
          [⟨[105, 108, 112], 0, []⟩, ⟨[102, 111, 111], 0, [98, 97, 114]⟩,
           ⟨[98, 101, 101, 112], 1, [98, 111, 111, 112]⟩,
           ⟨[106, 115, 111, 110], 2, [123, 125]⟩]) := by
      simp only [writeContents]
      rw [if_pos (by decide), if_neg (by decide)]
    simp only [serialize, hcont, hpd]
    rfl

/-- C4 (counterexample): in the legacy TypeScript v1 `writeError`, whose
`code` field is optional, the empty code string is falsy, so the length
check is skipped, the default `'F00'` is substituted, and encoding
succeeds even though the code's length (0) is not 3. -/
theorem claim_C4_counterexample :
    ([] : Bytes).length ≠ 3 ∧
    writeErrorOptionalCode (some []) [] (.valid ⟨2017, 1, 1, 0, 0, 0, 0⟩) [] [] =
      .ok [70, 48, 48, 0, 19, 50, 48, 49, 55, 48, 49, 48, 49, 48, 48, 48, 48,
        48, 48, 46, 48, 48, 48, 90, 0, 1, 0] := by
  refine ⟨by decide, ?_⟩
  have hpd : writeProtocolData ([] : List BtpSubProtocol) = [1, 0] := by
    rw [writeProtocolData_small (by norm_num)]
    rfl
  simp only [writeErrorOptionalCode, jsTruthy, toGeneralizedTimeBuffer, hpd]
  decide

/-- C4 (amended): in the writers whose `code` field is mandatory (the
versioned module's v1 branch and the TypeScript v1.1 module), encoding an
ERROR fails with `invalidErrorCode` exactly when the code's length is not
3, and succeeds with respect to this check when it is exactly 3; the
legacy optional-`code` writer applies the check only to a present,
non-empty code (see the counterexample). -/
theorem claim_C4_codeCheck (code name dataStr : Bytes) (c : DateComponents)
    (pd : List BtpSubProtocol) (v : Nat) (hv : v ≠ BTP_VERSION_ALPHA) :
    (code.length ≠ 3 →
      writeError (.error code name (.valid c) dataStr pd) v =
        .error .invalidErrorCode) ∧
    (code.length = 3 →
      writeError (.error code name (.valid c) dataStr pd) v =
        .ok (code ++ writeVarOctetString name ++
          writeVarOctetString (toGeneralizedTimeBytes c) ++
          writeVarOctetString dataStr ++ writeProtocolData pd)) := by
  constructor
  · intro hne
    simp only [writeError]
    rw [if_neg hv, if_pos hne]
  · intro h3
    simp only [writeError, toGeneralizedTimeBuffer]
    rw [if_neg hv, if_neg (by omega)]

theorem claim_C4_witness :
    BTP_VERSION_1 ≠ BTP_VERSION_ALPHA ∧
    ([70] : Bytes).length ≠ 3 ∧
    writeError (.error [70] [] (.valid ⟨2017, 1, 1, 0, 0, 0, 0⟩) [] [])
      BTP_VERSION_1 = .error .invalidErrorCode ∧
    writeError (.error [70, 48, 48] [] (.valid ⟨2017, 1, 1, 0, 0, 0, 0⟩) [] [])
      BTP_VERSION_1 =
      .ok ([70, 48, 48] ++ writeVarOctetString [] ++
        writeVarOctetString (toGeneralizedTimeBytes ⟨2017, 1, 1, 0, 0, 0, 0⟩) ++
        writeVarOctetString [] ++ writeProtocolData []) :=
  ⟨by decide, by decide,
    (claim_C4_codeCheck [70] [] [] ⟨2017, 1, 1, 0, 0, 0, 0⟩ [] BTP_VERSION_1
      (by decide)).1 (by decide),
    (claim_C4_codeCheck [70, 48, 48] [] [] ⟨2017, 1, 1, 0, 0, 0, 0⟩ []
      BTP_VERSION_1 (by decide)).2 rfl⟩

/-- C5: for every request id and protocol-data list, the logical MESSAGE
type serializes under the alpha generation and under the v1 generation to
byte sequences identical except for the first byte, and those first bytes
are `TYPE_MESSAGE + 1` and `TYPE_MESSAGE`: they differ exactly by the alpha
generation's constant type-code offset. -/
theorem claim_C5_versionOffset (requestId : Nat) (pd : List BtpSubProtocol) :
    serialize ⟨TYPE_MESSAGE, requestId, .bare pd⟩ BTP_VERSION_ALPHA =
      .ok ((TYPE_MESSAGE + 1) ::
        (writeUInt32 requestId ++ writeVarOctetString (writeProtocolData pd))) ∧
    serialize ⟨TYPE_MESSAGE, requestId, .wrapped pd⟩ BTP_VERSION_1 =
      .ok (TYPE_MESSAGE ::
        (writeUInt32 requestId ++ writeVarOctetString (writeProtocolData pd))) ∧
    typeToVersion TYPE_MESSAGE BTP_VERSION_ALPHA = TYPE_MESSAGE + 1 ∧
    typeToVersion TYPE_MESSAGE BTP_VERSION_1 = TYPE_MESSAGE := by
  refine ⟨?_, ?_, rfl, rfl⟩
  · have hcont : writeContents ⟨TYPE_MESSAGE, requestId, .bare pd⟩
        BTP_VERSION_ALPHA = .ok (writeProtocolData pd) := by
      simp only [writeContents]
      rw [if_pos (by decide), if_pos trivial]
    simp only [serialize, hcont]
    rfl
  · have hcont : writeContents ⟨TYPE_MESSAGE, requestId, .wrapped pd⟩
        BTP_VERSION_1 = .ok (writeProtocolData pd) := by
      simp only [writeContents]
      rw [if_pos (by decide), if_neg (by decide)]
    simp only [serialize, hcont]
    rfl

/-- C6: for every decimal string denoting an integer below `2 ^ 64`
(modelled as the canonical decimal representation of such an `n`),
`stringToTwoNumbers` yields the pair `(n / 2^32, n mod 2^32)` and
`twoNumbersToString` recombines it as `hi * 2^32 + lo` in arbitrary
precision, returning the string exactly. -/
theorem claim_C6_amountPrecision (n : Nat) (h : n < 2 ^ 64) :
    stringToTwoNumbers (natToDecimal n) = (n / 2 ^ 32, n % 2 ^ 32) ∧
    twoNumbersToString (stringToTwoNumbers (natToDecimal n)) =
      natToDecimal n := by
  constructor
  · rw [stringToTwoNumbers_natToDecimal]
    rfl
  · exact twoNumbersToString_stringToTwoNumbers ⟨n, h, rfl⟩

theorem claim_C6_witness :
    (1234567890123 : Nat) < 2 ^ 64 ∧
    natToDecimal 1234567890123 =
      [49, 50, 51, 52, 53, 54, 55, 56, 57, 48, 49, 50, 51] ∧
    stringToTwoNumbers (natToDecimal 1234567890123) =
      (1234567890123 / 2 ^ 32, 1234567890123 % 2 ^ 32) ∧
    twoNumbersToString (stringToTwoNumbers (natToDecimal 1234567890123)) =
      natToDecimal 1234567890123 :=
  ⟨by decide, by decide,
    (claim_C6_amountPrecision 1234567890123 (by decide)).1,
    (claim_C6_amountPrecision 1234567890123 (by decide)).2⟩

/-- C7 (counterexample): decoding an ERROR packet whose stored timestamp
octet string ("hello") does not match the GeneralizedTime pattern
succeeds, returning a packet whose date was built from the raw string — it
does not fail with a Malformed error. -/
theorem claim_C7_counterexample :
    matchesGeneralizedTime [104, 101, 108, 108, 111] = false ∧
    deserialize
      [2, 0, 0, 0, 0, 13, 70, 48, 48, 0, 5, 104, 101, 108, 108, 111, 0, 1, 0]
      BTP_VERSION_1 =
      .ok ⟨TYPE_ERROR, 0,
        .error [70, 48, 48] [] (.fromRaw [104, 101, 108, 108, 111]) [] []⟩ := by
  exact ⟨by decide, by decide⟩

/-- C7 (amended): for every stored timestamp octet string that does not
match the GeneralizedTime pattern, `readGeneralizedTime` succeeds rather
than failing: the unmatched string is handed to the `Date` constructor
unchanged (an environment-defined, possibly invalid, `Date`), and no
Malformed error is raised. -/
theorem claim_C7_noValidation (s rest : Bytes)
    (hm : matchesGeneralizedTime s = false) (hlen : s.length < 256 ^ 127) :
    readGeneralizedTime (writeVarOctetString s ++ rest) =
      .ok (.fromRaw s, rest) :=
  readGeneralizedTime_noMatch rest hlen hm

theorem claim_C7_witness :
    matchesGeneralizedTime [104, 101, 108, 108, 111] = false ∧
    ([104, 101, 108, 108, 111] : Bytes).length < 256 ^ 127 ∧
    readGeneralizedTime (writeVarOctetString [104, 101, 108, 108, 111] ++ []) =
      .ok (.fromRaw [104, 101, 108, 108, 111], []) :=
  ⟨by decide, by decide,
    claim_C7_noValidation [104, 101, 108, 108, 111] [] (by decide) (by decide)⟩

/-- C8: for every buffer on which envelope decoding succeeds and every
byte sequence appended after it, decoding the concatenation reads the same
envelope (with the extra bytes left unconsumed) and `deserialize` returns
the very same result as on the original buffer: bytes after the envelope's
declared payload length are silently ignored and never cause an error. -/
theorem claim_C8_trailingBytes (b s : Bytes) (v : Nat) (env : Envelope)
    (r : Bytes) (h : readEnvelope b = .ok (env, r)) :
    readEnvelope (b ++ s) = .ok (env, r ++ s) ∧
    deserialize (b ++ s) v = deserialize b v :=
  ⟨readEnvelope_append s h, deserialize_append s v h⟩

theorem claim_C8_witness :
    readEnvelope [6, 0, 0, 0, 1, 2, 1, 0] = .ok (⟨6, 1, [1, 0]⟩, []) ∧
    readEnvelope ([6, 0, 0, 0, 1, 2, 1, 0] ++ [255, 255]) =
      .ok (⟨6, 1, [1, 0]⟩, [] ++ [255, 255]) ∧
    deserialize ([6, 0, 0, 0, 1, 2, 1, 0] ++ [255, 255]) BTP_VERSION_1 =
      deserialize [6, 0, 0, 0, 1, 2, 1, 0] BTP_VERSION_1 := by
  have h : readEnvelope [6, 0, 0, 0, 1, 2, 1, 0] = .ok (⟨6, 1, [1, 0]⟩, []) := by
    decide
  exact ⟨h,
    (claim_C8_trailingBytes [6, 0, 0, 0, 1, 2, 1, 0] [255, 255] BTP_VERSION_1
      ⟨6, 1, [1, 0]⟩ [] h).1,
    (claim_C8_trailingBytes [6, 0, 0, 0, 1, 2, 1, 0] [255, 255] BTP_VERSION_1
      ⟨6, 1, [1, 0]⟩ [] h).2⟩

/-- C9: for every buffer whose leading type byte maps, after the active
version's offset is removed, to a value outside that version's known set
of packet types (0 through 7), `deserialize` fails with an
`unrecognizedType` error and returns no packet. -/
theorem claim_C9_unrecognizedType {b : Bytes} {env : Envelope} {r : Bytes}
    {v : Nat} (henv : readEnvelope b = .ok (env, r))
    (hout : typeFromVersion env.type v < 0 ∨ 7 < typeFromVersion env.type v) :
    deserialize b v = .error .unrecognizedType :=
  deserialize_unrecognized henv hout

theorem claim_C9_witness :
    readEnvelope [8, 0, 0, 0, 0, 0] = .ok (⟨8, 0, []⟩, []) ∧
    (typeFromVersion 8 BTP_VERSION_1 < 0 ∨
      7 < typeFromVersion 8 BTP_VERSION_1) ∧
    deserialize [8, 0, 0, 0, 0, 0] BTP_VERSION_1 =
      .error .unrecognizedType ∧
    readEnvelope [0, 0, 0, 0, 0, 0] = .ok (⟨0, 0, []⟩, []) ∧
    (typeFromVersion 0 BTP_VERSION_ALPHA < 0 ∨
      7 < typeFromVersion 0 BTP_VERSION_ALPHA) ∧
    deserialize [0, 0, 0, 0, 0, 0] BTP_VERSION_ALPHA =
      .error .unrecognizedType := by
  have h1 : readEnvelope [8, 0, 0, 0, 0, 0] = .ok (⟨8, 0, []⟩, []) := by decide
  have h2 : typeFromVersion 8 BTP_VERSION_1 < 0 ∨
      7 < typeFromVersion 8 BTP_VERSION_1 := by decide
  have h3 : readEnvelope [0, 0, 0, 0, 0, 0] = .ok (⟨0, 0, []⟩, []) := by decide
  have h4 : typeFromVersion 0 BTP_VERSION_ALPHA < 0 ∨
      7 < typeFromVersion 0 BTP_VERSION_ALPHA := by decide
  exact ⟨h1, h2, claim_C9_unrecognizedType h1 h2, h3, h4,
    claim_C9_unrecognizedType h3 h4⟩

/-- C10: `readProtocolData` accepts non-canonical count-prefix widths: any
width byte large enough to hold the count decodes to the same list as the
canonical encoding; the decoder never checks the width against the
`max(1, ceil(log2(count + 1) / 8))` formula, so distinct wire byte
sequences (`[1, 0]` and `[2, 0, 0]`) decode to equal values and the
decoder is not injective. -/
theorem claim_C10_nonCanonicalWidth {pd : List BtpSubProtocol} {w : Nat}
    (rest : Bytes) (h1 : 1 ≤ w) (h2 : w < 256) (h3 : pd.length < 256 ^ w)
    (h4 : ∀ p ∈ pd, WfEntry p) :
    readProtocolData
      (w :: (writeUIntBE pd.length w ++ (pd.map writeProtocolDataEntry).flatten)
        ++ rest) = .ok (pd, rest) ∧
    readProtocolData [1, 0] = .ok ([], []) ∧
    readProtocolData [2, 0, 0] = .ok ([], []) ∧
    ([1, 0] : Bytes) ≠ [2, 0, 0] :=
  ⟨readProtocolData_anyWidth rest h2 h3 h4, by decide, by decide, by decide⟩

theorem claim_C10_witness :
    ((1 : Nat) ≤ 2 ∧ (2 : Nat) < 256 ∧
      ([⟨[105, 108, 112], 0, []⟩] : List BtpSubProtocol).length < 256 ^ 2) ∧
    readProtocolData
      ((2 : Nat) :: (writeUIntBE
          ([⟨[105, 108, 112], 0, []⟩] : List BtpSubProtocol).length 2 ++
        (([⟨[105, 108, 112], 0, []⟩] : List BtpSubProtocol).map
          writeProtocolDataEntry).flatten) ++ []) =
      .ok ([⟨[105, 108, 112], 0, []⟩], []) := by
  refine ⟨⟨by decide, by decide, by decide⟩, ?_⟩
  exact (claim_C10_nonCanonicalWidth [] (by decide) (by decide) (by decide)
    (by decide)).1
